import Mathlib

/-!
Shallow embedding of the demo driver in src/demo/demo_handmocap.py.

The script wires external components (a hand bbox detector, a hand mocap
regressor, a mesh visualizer, an open3d point-cloud window) around a
per-frame loop.  External calls and ambient inputs are modelled by an
explicit environment of pure functions.  The observable behaviour of one
run is a list of per-frame event blocks, trailing post-loop events, and
an outcome: a normal end, a failed assert, or an uncaught Python error
(UnboundLocalError, KeyError/TypeError on a missing left hand,
IndexError).
-/

namespace HandMocapDemo

/-- A 3D joint position (x, y, z), as stored in pred_joints_smpl. -/
abbrev Joint := Int × Int × Int

/-- An input image: its two dimensions (shape[:2] gives height, width) and
an abstract content identifier standing for the pixels. -/
structure Image where
  width : Nat
  height : Nat
  content : Nat
deriving DecidableEq, Repr

/-- One entry of hand_bbox_list: a dict with optional left_hand and
right_hand boxes, each an array of four numbers. -/
structure HandBBoxEntry where
  left_hand : Option (Int × Int × Int × Int)
  right_hand : Option (Int × Int × Int × Int)
deriving DecidableEq, Repr

/-- A body bounding box, as stored in body_bbox_list. -/
abbrev BodyBBox := Int × Int × Int × Int

/-- Per-hand regression output; only the field the script reads is kept. -/
structure HandPred where
  pred_joints_smpl : List Joint
deriving DecidableEq, Repr

/-- One entry of pred_output_list, a dict whose left_hand and right_hand
values may be None. -/
structure PredOutput where
  left_hand : Option HandPred
  right_hand : Option HandPred
deriving DecidableEq, Repr

/-- Result of bbox_detector.detect_hand_bbox (the two components the loop
keeps; body_pose_list and raw_hand_bboxes are set aside as None by the
script in the other branches and never read afterwards). -/
structure DetectOutput where
  body_bbox_list : List BodyBBox
  hand_bbox_list : List HandBBoxEntry

/-- One precomputed entry for the bbox_dir input source: the image the
stored image_path loads to (None for an unreadable file) and the two
stored bbox lists. -/
structure BBoxDirEntry where
  img : Option Image
  hand_bbox_list : List HandBBoxEntry
  body_bbox_list : List BodyBBox

/-- The command-line options the loop reads. -/
structure Args where
  out_dir : Option String
  start_frame : Nat
  end_frame : Nat
  crop_type : String
  save_bbox_output : Bool
  save_pred_pkl : Bool
  save_frame : Bool
  no_display : Bool
  no_video_out : Bool

/-- The environment: CUDA availability, what demo_utils.setup_input
returned (input_type plus the input source data), and the external model
components as pure functions.  For video and webcam the stream is indexed
by read count; the video_frame catch-up in the loop makes the n-th kept
frame the n-th read, so indexing by frame number is faithful. -/
structure Env where
  cuda_available : Bool
  input_type : String
  image_dir_len : Nat
  imread : Nat → Option Image
  bbox_entries : List BBoxDirEntry
  stream : Nat → Option Image
  capture_some : Bool
  detect_hand_bbox : Image → DetectOutput
  regress : Image → List HandBBoxEntry → List PredOutput

/-- Observable events of a run, in program order.  Events carrying a frame
number belong to one iteration of the per-frame loop. -/
inductive Event where
  | selectFrame (f : Nat) (img : Image)
  | saveFrameJpeg (f : Nat)
  | bboxPrecomputed (f : Nat)
  | bboxSynthesized (f : Nat) (hand_bbox_list : List HandBBoxEntry)
  | bboxDetected (f : Nat)
  | saveBboxJson (f : Nat) (body : List BodyBBox) (hand : List HandBBoxEntry)
  | printNoHand (f : Nat)
  | regressed (f : Nat) (preds : List PredOutput)
  | updatePointCloud (f : Nat) (pts : List Joint)
  | visualize (f : Nat)
  | display (f : Nat)
  | saveResImg (f : Nat)
  | savePredPkl (f : Nat)
  | genVideoOut
  | releaseCapture
deriving DecidableEq, Repr

/-- The position of an event inside the fixed per-iteration order of the
loop body (post-loop events get ranks past every per-frame rank). -/
def Event.rank : Event → Nat
  | .selectFrame _ _ => 0
  | .saveFrameJpeg _ => 1
  | .bboxPrecomputed _ => 2
  | .bboxSynthesized _ _ => 2
  | .bboxDetected _ => 2
  | .saveBboxJson _ _ _ => 3
  | .printNoHand _ => 4
  | .regressed _ _ => 5
  | .updatePointCloud _ _ => 6
  | .visualize _ => 7
  | .display _ => 8
  | .saveResImg _ => 9
  | .savePredPkl _ => 10
  | .genVideoOut => 11
  | .releaseCapture => 12

/-- The frame an event belongs to; none for the two post-loop events. -/
def Event.frameOf : Event → Option Nat
  | .selectFrame f _ => some f
  | .saveFrameJpeg f => some f
  | .bboxPrecomputed f => some f
  | .bboxSynthesized f _ => some f
  | .bboxDetected f => some f
  | .saveBboxJson f _ _ => some f
  | .printNoHand f => some f
  | .regressed f _ => some f
  | .updatePointCloud f _ => some f
  | .visualize f => some f
  | .display f => some f
  | .saveResImg f => some f
  | .savePredPkl f => some f
  | .genVideoOut => none
  | .releaseCapture => none

/-- How a run ends: normally, by a failed assert, or by an uncaught
Python exception. -/
inductive Outcome where
  | ok
  | assertCudaUnavailable
  | assertOutDirNone
  | assertUnknownInputType
  | assertCropType
  | assertLenHandBody
  | assertLenBodyPred
  | unboundLocalBodyBbox
  | unboundLocalHandBbox
  | errorPredIndex
  | errorLeftHand
deriving DecidableEq, Repr

/-- The two locals of run_hand_mocap that persist across iterations and
may be read before ever being assigned; none models an unbound local. -/
structure LoopState where
  hand_bbox_list : Option (List HandBBoxEntry)
  body_bbox_list : Option (List BodyBBox)

/-- Result of one executed iteration body past the break check. -/
inductive IterStep where
  | abort (evs : List Event) (o : Outcome)
  | cont (st : LoopState) (evs : List Event)

/-- Result of the frame-selection part of one iteration (lines 86-133). -/
inductive FetchResult where
  | unknownInput
  | fetched (img : Option Image) (load_bbox : Bool) (st : LoopState) (evs : List Event)

/-- Event list for obtaining a frame from the source. -/
def selEvs (c : Nat) (img : Option Image) : List Event :=
  match img with
  | some i => [Event.selectFrame c i]
  | none => []

/-- Lines 86-133: select the next frame from the single configured input
source, set load_bbox, for bbox_dir assign both bbox locals from the
stored entry, and for video/webcam save the frame JPEG when requested. -/
def fetchFrame (args : Args) (env : Env) (c : Nat) (st : LoopState) : FetchResult :=
  if env.input_type = "image_dir" then
    let img := if c < env.image_dir_len then env.imread c else none
    .fetched img false st (selEvs c img)
  else if env.input_type = "bbox_dir" then
    match env.bbox_entries[c]? with
    | some e =>
        .fetched e.img true
          { hand_bbox_list := some e.hand_bbox_list,
            body_bbox_list := some e.body_bbox_list } (selEvs c e.img)
    | none => .fetched none false st []
  else if env.input_type = "video" ∨ env.input_type = "webcam" then
    let img := env.stream c
    .fetched img false st
      (selEvs c img ++
        match img with
        | some _ => if args.save_frame then [Event.saveFrameJpeg c] else []
        | none => [])
  else .unknownInput

/-- Line 177: the applied homogeneous transform negates the Y coordinate
of every point. -/
def negYTransform (pts : List Joint) : List Joint :=
  pts.map fun j => (j.1, -j.2.1, j.2.2)

/-- Lines 175-177: the point cloud of one frame is built from the
left_hand entry of the first prediction only; none when that entry is
None (the script then raises before updating the renderer). -/
def pcdPoints (p : PredOutput) : Option (List Joint) :=
  p.left_hand.map fun lh => negYTransform lh.pred_joints_smpl

/-- Lines 165-210: regression call, the two length asserts, the point
cloud update, mesh extraction plus visualize, optional display, result
image save, optional pkl save.  Reading body_bbox_list aborts with
UnboundLocalError when it was never assigned. -/
def regressOn (args : Args) (env : Env) (c : Nat) (img : Image)
    (hand : List HandBBoxEntry) (st : LoopState) (evs : List Event) : IterStep :=
  let preds := env.regress img hand
  let evs := evs ++ [Event.regressed c preds]
  match st.body_bbox_list with
  | none => .abort evs .unboundLocalBodyBbox
  | some body =>
    if hand.length ≠ body.length then .abort evs .assertLenHandBody
    else if body.length ≠ preds.length then .abort evs .assertLenBodyPred
    else
      match preds with
      | [] => .abort evs .errorPredIndex
      | p0 :: _ =>
        match pcdPoints p0 with
        | none => .abort evs .errorLeftHand
        | some pts =>
          .cont st
            (evs ++ [Event.updatePointCloud c pts, Event.visualize c] ++
              (if args.no_display then [] else [Event.display c]) ++
              (if args.out_dir ≠ none then [Event.saveResImg c] else []) ++
              (if args.save_pred_pkl then [Event.savePredPkl c] else []))

/-- Lines 161-163: skip the frame when the hand bbox list is empty (the
script prints a message and continues), otherwise go on to regression. -/
def emptyCheckAndRest (args : Args) (env : Env) (c : Nat) (img : Image)
    (st : LoopState) (evs : List Event) : IterStep :=
  match st.hand_bbox_list with
  | none => .abort evs .unboundLocalHandBbox
  | some hand =>
    if hand.length < 1 then .cont st (evs ++ [Event.printNoHand c])
    else regressOn args env c img hand st evs

/-- Lines 158-159: optional JSON save of the two bbox lists; the call
reads body_bbox_list before hand_bbox_list, so an unbound body local
aborts here first. -/
def jsonAndRest (args : Args) (env : Env) (c : Nat) (img : Image)
    (st : LoopState) (evs : List Event) : IterStep :=
  if args.save_bbox_output then
    match st.body_bbox_list with
    | none => .abort evs .unboundLocalBodyBbox
    | some body =>
      match st.hand_bbox_list with
      | none => .abort evs .unboundLocalHandBbox
      | some hand =>
        emptyCheckAndRest args env c img st (evs ++ [Event.saveBboxJson c body hand])
  else emptyCheckAndRest args env c img st evs

/-- Line 149: the synthesized hand_crop box, a right_hand entry covering
the whole image, [0, 0, img_w, img_h]. -/
def wholeImageBox (img : Image) : HandBBoxEntry :=
  { left_hand := none,
    right_hand := some (0, 0, (img.width : Int), (img.height : Int)) }

/-- Lines 141-155: bounding-box dispatch.  Precomputed boxes were already
assigned at load time; hand_crop synthesizes a single right-hand box
covering the whole image (and leaves body_bbox_list untouched); no_crop
runs the detector; any other crop_type fails the assert on line 153. -/
def processFrame (args : Args) (env : Env) (c : Nat) (img : Image)
    (load_bbox : Bool) (st : LoopState) : IterStep :=
  if load_bbox then
    jsonAndRest args env c img st [Event.bboxPrecomputed c]
  else if args.crop_type = "hand_crop" then
    jsonAndRest args env c img { st with hand_bbox_list := some [wholeImageBox img] }
      [Event.bboxSynthesized c [wholeImageBox img]]
  else if args.crop_type = "no_crop" then
    let d := env.detect_hand_bbox img
    jsonAndRest args env c img
      { hand_bbox_list := some d.hand_bbox_list,
        body_bbox_list := some d.body_bbox_list } [Event.bboxDetected c]
  else .abort [] .assertCropType

/-- The while loop of run_hand_mocap (lines 84-210), as blocks of events
per frame index plus the final outcome.  The gas argument only bounds the
recursion; run_hand_mocap supplies enough that the zero case is never
reached. -/
def mainLoop (args : Args) (env : Env) : Nat → Nat → LoopState → List (Nat × List Event) × Outcome
  | 0, _, _ => ([], .ok)
  | gas + 1, c, st =>
    match fetchFrame args env c st with
    | .unknownInput => ([(c, [])], .assertUnknownInputType)
    | .fetched none _ _ evs => ([(c, evs)], .ok)
    | .fetched (some img) load_bbox st1 evs =>
      if c + 1 > args.end_frame then ([(c, evs)], .ok)
      else
        match processFrame args env c img load_bbox st1 with
        | .abort evs2 o => ([(c, evs ++ evs2)], o)
        | .cont st2 evs2 =>
          ((c, evs ++ evs2) :: (mainLoop args env gas (c + 1) st2).1,
            (mainLoop args env gas (c + 1) st2).2)

/-- Gas that always suffices for the loop: the break on line 136 stops the
loop once cur_frame passes end_frame, so at most end_frame + 1 - start
iterations follow the first. -/
def gas0 (args : Args) : Nat := args.end_frame + 2 - args.start_frame + 1

/-- Full result of one call of run_hand_mocap. -/
structure RunResult where
  frames : List (Nat × List Event)
  post : List Event
  outcome : Outcome

/-- All events of the run in program order. -/
def RunResult.trace (r : RunResult) : List Event :=
  (r.frames.map Prod.snd).flatten ++ r.post

/-- Lines 58-219: the out_dir assert, the loop from start_frame with both
bbox locals unbound, then on normal loop exit the optional video assembly
(line 213) and the webcam capture release (line 217). -/
def run_hand_mocap (args : Args) (env : Env) : RunResult :=
  if args.out_dir = none then ⟨[], [], .assertOutDirNone⟩
  else
    let r := mainLoop args env (gas0 args) args.start_frame ⟨none, none⟩
    match r.2 with
    | .ok =>
      ⟨r.1,
        (if ¬args.no_video_out ∧ (env.input_type = "video" ∨ env.input_type = "webcam")
          then [Event.genVideoOut] else []) ++
        (if env.input_type = "webcam" ∧ env.capture_some
          then [Event.releaseCapture] else []),
        .ok⟩
    | o => ⟨r.1, [], o⟩

/-- Lines 222-243: main asserts CUDA availability before anything else
runs, then calls run_hand_mocap. -/
def main (args : Args) (env : Env) : RunResult :=
  if ¬env.cuda_available then ⟨[], [], .assertCudaUnavailable⟩
  else run_hand_mocap args env

/-- The image the input source yields at a frame index: the imread result
within range for image_dir, the stored entry image for bbox_dir, the
stream read for video and webcam. -/
def sourceAt (env : Env) (f : Nat) : Option Image :=
  if env.input_type = "image_dir" then
    (if f < env.image_dir_len then env.imread f else none)
  else if env.input_type = "bbox_dir" then
    (env.bbox_entries[f]?).bind (fun e => e.img)
  else env.stream f

/-- A frame counts as processed when its iteration reached the
bounding-box dispatch on line 141 (detection, regression and
visualization territory), observable as one of the three bbox events. -/
def isBboxStepOf (f : Nat) : Event → Bool
  | .bboxPrecomputed g => f = g
  | .bboxSynthesized g _ => f = g
  | .bboxDetected g => f = g
  | _ => false

/-- Whether frame f was processed in the run. -/
def processed (r : RunResult) (f : Nat) : Bool :=
  r.trace.any (isBboxStepOf f)

/-- The event list a loop-body stage produced, whether it aborted or not. -/
def IterStep.evs : IterStep → List Event
  | .abort e _ => e
  | .cont _ e => e

/-- A well-formed segment of one iteration's events: all on frame c, ranks
strictly increasing and within the given bounds. -/
def EvSeg (c lo hi : Nat) (evs : List Event) : Prop :=
  (∀ e ∈ evs, e.frameOf = some c) ∧
  List.Chain' (· < ·) (evs.map Event.rank) ∧
  ∀ e ∈ evs, lo ≤ e.rank ∧ e.rank ≤ hi

/-- What one membership in the block list of the loop tells us: the block
was produced by the iteration at its own frame index, from some pre-state,
by one of the four iteration outcomes (unknown input, source exhausted,
top-of-range break, or a full body run), and an aborting or terminating
block also fixes the loop outcome. -/
def BlockCase (args : Args) (env : Env) (f : Nat) (evs : List Event)
    (oc : Outcome) : Prop :=
  ∃ st,
    (fetchFrame args env f st = .unknownInput ∧ evs = [] ∧
      oc = .assertUnknownInputType) ∨
    (∃ ld st1 evs0, fetchFrame args env f st = .fetched none ld st1 evs0 ∧
      evs = evs0 ∧ oc = .ok) ∨
    (∃ img ld st1 evs0, fetchFrame args env f st = .fetched (some img) ld st1 evs0 ∧
      ((args.end_frame < f + 1 ∧ evs = evs0 ∧ oc = .ok) ∨
        (f + 1 ≤ args.end_frame ∧
          ((∃ evs2 o, processFrame args env f img ld st1 = .abort evs2 o ∧
              evs = evs0 ++ evs2 ∧ oc = o) ∨
            (∃ st2 evs2, processFrame args env f img ld st1 = .cont st2 evs2 ∧
              evs = evs0 ++ evs2)))))

/-- The four input types demo_utils.setup_input can return. -/
def inputFour (env : Env) : Prop :=
  env.input_type = "image_dir" ∨ env.input_type = "bbox_dir" ∨
  env.input_type = "video" ∨ env.input_type = "webcam"

/-- A frame iteration reached the bbox dispatch of line 141, observable
through exactly one of the three bbox events. -/
def reachedBbox (f : Nat) (evs : List Event) : Prop :=
  Event.bboxPrecomputed f ∈ evs ∨ (∃ l, Event.bboxSynthesized f l ∈ evs) ∨
  Event.bboxDetected f ∈ evs

/-- Concrete 64 by 48 test image. -/
def fxImg : Image := ⟨64, 48, 7⟩

/-- Concrete options: image_dir style run, frames 0 to 5, no_crop. -/
def fxArgs : Args :=
  { out_dir := some "out", start_frame := 0, end_frame := 5,
    crop_type := "no_crop", save_bbox_output := false, save_pred_pkl := false,
    save_frame := false, no_display := true, no_video_out := false }

/-- Concrete environment: one readable image, a detector returning one
body and one hand box, a regressor returning one prediction with a left
hand. -/
def fxEnv : Env :=
  { cuda_available := true, input_type := "image_dir", image_dir_len := 1,
    imread := fun _ => some fxImg, bbox_entries := [], stream := fun _ => none,
    capture_some := false,
    detect_hand_bbox := fun _ => ⟨[(1, 2, 3, 4)], [⟨none, some (5, 6, 7, 8)⟩]⟩,
    regress := fun _ _ => [⟨some ⟨[(1, 2, 3)]⟩, none⟩] }

/-- Environment whose first image file is unreadable and second readable. -/
def fxEnvGap : Env :=
  { fxEnv with
    image_dir_len := 2,
    imread := fun n => if n = 0 then none else some fxImg }

/-- Video input environment with an empty stream. -/
def fxEnvVid : Env := { fxEnv with input_type := "video" }

/-- Webcam input environment with a live capture object. -/
def fxEnvCam : Env := { fxEnv with input_type := "webcam", capture_some := true }

/-- Environment without CUDA. -/
def fxEnvNoCuda : Env := { fxEnv with cuda_available := false }

/-- Environment whose setup returned an unrecognized input type. -/
def fxEnvUnknown : Env := { fxEnv with input_type := "bogus" }

/-- Options with an unrecognized crop type. -/
def fxArgsCrop : Args := { fxArgs with crop_type := "weird" }

/-- Options with crop_type hand_crop. -/
def fxArgsHC : Args := { fxArgs with crop_type := "hand_crop" }

/-- Options with the bbox JSON save enabled. -/
def fxArgsJson : Args := { fxArgs with save_bbox_output := true }

/-- Detector returning one hand box but no body boxes. -/
def fxEnvMisHB : Env :=
  { fxEnv with detect_hand_bbox := fun _ => ⟨[], [⟨none, some (5, 6, 7, 8)⟩]⟩ }

/-- Regressor returning no predictions. -/
def fxEnvMisBP : Env := { fxEnv with regress := fun _ _ => [] }

/-- Detector finding no hands at all. -/
def fxEnvEmpty : Env := { fxEnv with detect_hand_bbox := fun _ => ⟨[], []⟩ }

/-- Regressor whose first prediction has no left hand, only a right one. -/
def fxEnvNoLH : Env :=
  { fxEnv with regress := fun _ _ => [⟨none, some ⟨[(1, 2, 3)]⟩⟩] }

/-- The event block of the fully processed frame 0 of fxArgs and fxEnv. -/
def fxEvs0 : List Event :=
  [Event.selectFrame 0 fxImg, Event.bboxDetected 0,
    Event.regressed 0 [⟨some ⟨[(1, 2, 3)]⟩, none⟩],
    Event.updatePointCloud 0 [(1, -2, 3)], Event.visualize 0, Event.saveResImg 0]

/-- The event block of frame 0 in the hand_crop run that dies on the
unbound body_bbox_list. -/
def fxEvsHC : List Event :=
  [Event.selectFrame 0 fxImg, Event.bboxSynthesized 0 [wholeImageBox fxImg],
    Event.regressed 0 [⟨some ⟨[(1, 2, 3)]⟩, none⟩]]

/-- The event block of a frame skipped for an empty hand bbox list, with
the bbox JSON save enabled. -/
def fxEvsSkip : List Event :=
  [Event.selectFrame 0 fxImg, Event.bboxDetected 0, Event.saveBboxJson 0 [] [],
    Event.printNoHand 0]

/-- The event block of the frame whose first prediction has no left hand. -/
def fxEvsNoLH : List Event :=
  [Event.selectFrame 0 fxImg, Event.bboxDetected 0,
    Event.regressed 0 [⟨none, some ⟨[(1, 2, 3)]⟩⟩]]

theorem EvSeg.append {c lo hi lo2 hi2 : Nat} {l1 l2 : List Event}
    (h1 : EvSeg c lo hi l1) (h2 : EvSeg c lo2 hi2 l2) (hlt : hi < lo2) (hlo : lo ≤ lo2)
    (hhi : hi ≤ hi2) : EvSeg c lo hi2 (l1 ++ l2) := by
  obtain ⟨f1, ch1, b1⟩ := h1
  obtain ⟨f2, ch2, b2⟩ := h2
  refine ⟨?_, ?_, ?_⟩
  · intro e he
    rcases List.mem_append.1 he with h | h
    · exact f1 e h
    · exact f2 e h
  · rw [List.map_append]
    refine List.Chain'.append ch1 ch2 ?_
    intro x hx y hy
    rcases List.mem_map.1 (List.mem_of_mem_getLast? hx) with ⟨e, he, rfl⟩
    rcases List.mem_map.1 (List.mem_of_mem_head? hy) with ⟨e2, he2, rfl⟩
    have := (b1 e he).2
    have := (b2 e2 he2).1
    omega
  · intro e he
    rcases List.mem_append.1 he with h | h
    · have := b1 e h
      constructor <;> omega
    · have := b2 e h
      constructor <;> omega

theorem EvSeg.mono {c lo hi lo2 hi2 : Nat} {l : List Event}
    (h : EvSeg c lo hi l) (hlo : lo2 ≤ lo) (hhi : hi ≤ hi2) : EvSeg c lo2 hi2 l := by
  obtain ⟨f1, ch1, b1⟩ := h
  refine ⟨f1, ch1, fun e he => ?_⟩
  have := b1 e he
  constructor <;> omega

theorem regressOn_cases (args : Args) (env : Env) (c : Nat) (img : Image)
    (hand : List HandBBoxEntry) (st : LoopState) (evs : List Event) :
    (∃ o, (o = Outcome.unboundLocalBodyBbox ∨ o = Outcome.assertLenHandBody ∨
        o = Outcome.assertLenBodyPred ∨ o = Outcome.errorPredIndex ∨
        o = Outcome.errorLeftHand) ∧
      regressOn args env c img hand st evs =
        .abort (evs ++ [Event.regressed c (env.regress img hand)]) o) ∨
    (∃ p0 rest lh, env.regress img hand = p0 :: rest ∧ p0.left_hand = some lh ∧
      regressOn args env c img hand st evs =
        .cont st ((evs ++ [Event.regressed c (env.regress img hand)] ++
          [Event.updatePointCloud c (negYTransform lh.pred_joints_smpl),
            Event.visualize c] ++
          (if args.no_display then [] else [Event.display c]) ++
          (if args.out_dir ≠ none then [Event.saveResImg c] else []) ++
          (if args.save_pred_pkl then [Event.savePredPkl c] else [])))) := by
  rcases hb : st.body_bbox_list with _ | body
  · exact Or.inl ⟨Outcome.unboundLocalBodyBbox, by simp, by simp [regressOn, hb]⟩
  · by_cases h1 : hand.length = body.length
    · by_cases h2 : body.length = (env.regress img hand).length
      · rcases hp : env.regress img hand with _ | ⟨p0, rest⟩
        · exact Or.inl ⟨Outcome.errorPredIndex, by simp,
            by simp [regressOn, hb, h1, h2, hp]⟩
        · rcases hl : p0.left_hand with _ | lh
          · refine Or.inl ⟨Outcome.errorLeftHand, by simp, ?_⟩
            simp [regressOn, hb, h1, h2, hp, pcdPoints, hl]
          · refine Or.inr ⟨p0, rest, lh, by simp [hp], by simp [hl], ?_⟩
            simp [regressOn, hb, h1, h2, hp, pcdPoints, hl, List.append_assoc]
      · exact Or.inl ⟨Outcome.assertLenBodyPred, by simp,
          by simp [regressOn, hb, h1, h2]⟩
    · exact Or.inl ⟨Outcome.assertLenHandBody, by simp, by simp [regressOn, hb, h1]⟩

theorem emptyCheck_cases (args : Args) (env : Env) (c : Nat) (img : Image)
    (st : LoopState) (evs : List Event) :
    (st.hand_bbox_list = none ∧
      emptyCheckAndRest args env c img st evs = .abort evs .unboundLocalHandBbox) ∨
    (st.hand_bbox_list = some [] ∧
      emptyCheckAndRest args env c img st evs =
        .cont st (evs ++ [Event.printNoHand c])) ∨
    (∃ hand, st.hand_bbox_list = some hand ∧ hand ≠ [] ∧
      emptyCheckAndRest args env c img st evs = regressOn args env c img hand st evs) := by
  rcases hh : st.hand_bbox_list with _ | hand
  · exact Or.inl ⟨rfl, by simp [emptyCheckAndRest, hh]⟩
  · rcases hand with _ | ⟨h0, hs⟩
    · exact Or.inr (Or.inl ⟨rfl, by simp [emptyCheckAndRest, hh]⟩)
    · refine Or.inr (Or.inr ⟨h0 :: hs, rfl, by simp, ?_⟩)
      simp [emptyCheckAndRest, hh]

theorem jsonAndRest_cases (args : Args) (env : Env) (c : Nat) (img : Image)
    (st : LoopState) (evs : List Event) :
    (args.save_bbox_output = false ∧
      jsonAndRest args env c img st evs = emptyCheckAndRest args env c img st evs) ∨
    (args.save_bbox_output = true ∧ st.body_bbox_list = none ∧
      jsonAndRest args env c img st evs = .abort evs .unboundLocalBodyBbox) ∨
    (args.save_bbox_output = true ∧ st.body_bbox_list ≠ none ∧ st.hand_bbox_list = none ∧
      jsonAndRest args env c img st evs = .abort evs .unboundLocalHandBbox) ∨
    (∃ body hand, args.save_bbox_output = true ∧ st.body_bbox_list = some body ∧
      st.hand_bbox_list = some hand ∧
      jsonAndRest args env c img st evs =
        emptyCheckAndRest args env c img st (evs ++ [Event.saveBboxJson c body hand])) := by
  by_cases hs : args.save_bbox_output
  · rcases hb : st.body_bbox_list with _ | body
    · exact Or.inr (Or.inl ⟨hs, rfl, by simp [jsonAndRest, hs, hb]⟩)
    · rcases hh : st.hand_bbox_list with _ | hand
      · exact Or.inr (Or.inr (Or.inl ⟨hs, by simp [hb], rfl,
          by simp [jsonAndRest, hs, hb, hh]⟩))
      · exact Or.inr (Or.inr (Or.inr ⟨body, hand, hs, by simp [hb], by simp [hh],
          by simp [jsonAndRest, hs, hb, hh]⟩))
  · exact Or.inl ⟨by simpa using hs, by simp [jsonAndRest, hs]⟩

theorem processFrame_cases (args : Args) (env : Env) (c : Nat) (img : Image)
    (load_bbox : Bool) (st : LoopState) :
    (load_bbox = true ∧
      processFrame args env c img load_bbox st =
        jsonAndRest args env c img st [Event.bboxPrecomputed c]) ∨
    (load_bbox = false ∧ args.crop_type = "hand_crop" ∧
      processFrame args env c img load_bbox st =
        jsonAndRest args env c img
          { st with hand_bbox_list := some [wholeImageBox img] }
          [Event.bboxSynthesized c [wholeImageBox img]]) ∨
    (load_bbox = false ∧ args.crop_type = "no_crop" ∧
      processFrame args env c img load_bbox st =
        jsonAndRest args env c img
          { hand_bbox_list := some (env.detect_hand_bbox img).hand_bbox_list,
            body_bbox_list := some (env.detect_hand_bbox img).body_bbox_list }
          [Event.bboxDetected c]) ∨
    (load_bbox = false ∧ args.crop_type ≠ "hand_crop" ∧ args.crop_type ≠ "no_crop" ∧
      processFrame args env c img load_bbox st = .abort [] .assertCropType) := by
  cases load_bbox with
  | true => exact Or.inl ⟨rfl, by simp [processFrame]⟩
  | false =>
    by_cases h1 : args.crop_type = "hand_crop"
    · exact Or.inr (Or.inl ⟨rfl, h1, by simp [processFrame, h1]⟩)
    · by_cases h2 : args.crop_type = "no_crop"
      · exact Or.inr (Or.inr (Or.inl ⟨rfl, h2, by simp [processFrame, h1, h2]⟩))
      · exact Or.inr (Or.inr (Or.inr ⟨rfl, h1, h2, by simp [processFrame, h1, h2]⟩))

theorem fetchFrame_cases (args : Args) (env : Env) (c : Nat) (st : LoopState) :
    (env.input_type ≠ "image_dir" ∧ env.input_type ≠ "bbox_dir" ∧
      env.input_type ≠ "video" ∧ env.input_type ≠ "webcam" ∧
      fetchFrame args env c st = .unknownInput) ∨
    (env.input_type = "image_dir" ∧
      fetchFrame args env c st =
        .fetched (if c < env.image_dir_len then env.imread c else none) false st
          (selEvs c (if c < env.image_dir_len then env.imread c else none))) ∨
    (env.input_type = "bbox_dir" ∧
      ((env.bbox_entries[c]? = none ∧
          fetchFrame args env c st = .fetched none false st []) ∨
        (∃ e, env.bbox_entries[c]? = some e ∧
          fetchFrame args env c st =
            .fetched e.img true
              { hand_bbox_list := some e.hand_bbox_list,
                body_bbox_list := some e.body_bbox_list } (selEvs c e.img)))) ∨
    ((env.input_type = "video" ∨ env.input_type = "webcam") ∧
      fetchFrame args env c st =
        .fetched (env.stream c) false st
          (selEvs c (env.stream c) ++
            match env.stream c with
            | some _ => if args.save_frame then [Event.saveFrameJpeg c] else []
            | none => [])) := by
  by_cases h1 : env.input_type = "image_dir"
  · exact Or.inr (Or.inl ⟨h1, by simp [fetchFrame, h1]⟩)
  · by_cases h2 : env.input_type = "bbox_dir"
    · refine Or.inr (Or.inr (Or.inl ⟨h2, ?_⟩))
      rcases he : env.bbox_entries[c]? with _ | e
      · exact Or.inl ⟨rfl, by simp [fetchFrame, h1, h2, he]⟩
      · exact Or.inr ⟨e, rfl, by simp [fetchFrame, h1, h2, he]⟩
    · by_cases h3 : env.input_type = "video" ∨ env.input_type = "webcam"
      · exact Or.inr (Or.inr (Or.inr ⟨h3, by simp [fetchFrame, h1, h2, h3]⟩))
      · push_neg at h3
        exact Or.inl ⟨h1, h2, h3.1, h3.2, by simp [fetchFrame, h1, h2, h3.1, h3.2]⟩

theorem fetch_none_evs {args : Args} {env : Env} {c : Nat} {st : LoopState}
    {ld : Bool} {st1 : LoopState} {evs0 : List Event}
    (h : fetchFrame args env c st = .fetched none ld st1 evs0) : evs0 = [] := by
  rcases fetchFrame_cases args env c st with
    ⟨_, _, _, _, he⟩ | ⟨_, he⟩ | ⟨_, ⟨_, he⟩ | ⟨e, hee, he⟩⟩ | ⟨_, he⟩ <;>
    rw [he] at h
  · cases h
  · rcases hi : (if c < env.image_dir_len then env.imread c else none) with _ | i <;>
      rw [hi] at h <;> simp_all [selEvs]
  · simp_all
  · rcases hi : e.img with _ | i <;> rw [hi] at h <;> simp_all [selEvs]
  · rcases hi : env.stream c with _ | i <;> rw [hi] at h <;> simp_all [selEvs]

theorem fetch_some_spec {args : Args} {env : Env} {c : Nat} {st : LoopState}
    {img : Image} {ld : Bool} {st1 : LoopState} {evs0 : List Event}
    (h : fetchFrame args env c st = .fetched (some img) ld st1 evs0) :
    EvSeg c 0 1 evs0 ∧ Event.selectFrame c img ∈ evs0 ∧
    (∀ i2, Event.selectFrame c i2 ∈ evs0 → i2 = img) ∧
    (ld = true → env.input_type = "bbox_dir") ∧
    (env.input_type ≠ "bbox_dir" → ld = false ∧ st1 = st) ∧
    (Event.saveFrameJpeg c ∈ evs0 →
      (env.input_type = "video" ∨ env.input_type = "webcam") ∧ args.save_frame = true) ∧
    ((env.input_type = "video" ∨ env.input_type = "webcam") → args.save_frame = true →
      Event.saveFrameJpeg c ∈ evs0) := by
  rcases fetchFrame_cases args env c st with
    ⟨_, _, _, _, he⟩ | ⟨ht, he⟩ | ⟨ht, ⟨_, he⟩ | ⟨e, hee, he⟩⟩ | ⟨ht, he⟩ <;>
    rw [he] at h
  · cases h
  · rcases hi : (if c < env.image_dir_len then env.imread c else none) with _ | i <;>
      rw [hi] at h
    · cases h
    · rw [show selEvs c (some i) = [Event.selectFrame c i] from rfl] at h
      cases h
      refine ⟨⟨?_, ?_, ?_⟩, ?_, ?_, ?_, ?_, ?_, ?_⟩ <;>
        simp_all [Event.rank, Event.frameOf]
  · simp_all
  · rcases hi : e.img with _ | i <;> rw [hi] at h
    · cases h
    · rw [show selEvs c (some i) = [Event.selectFrame c i] from rfl] at h
      cases h
      refine ⟨⟨?_, ?_, ?_⟩, ?_, ?_, ?_, ?_, ?_, ?_⟩ <;>
        simp_all [Event.rank, Event.frameOf]
  · rcases hi : env.stream c with _ | i <;> rw [hi] at h
    · cases h
    · by_cases hsf : args.save_frame <;> simp only [hsf, if_true, if_false] at h <;>
        rw [show selEvs c (some i) = [Event.selectFrame c i] from rfl] at h <;>
        simp only [List.cons_append, List.nil_append, List.append_nil] at h <;>
        cases h <;>
        refine ⟨⟨?_, ?_, ?_⟩, ?_, ?_, ?_, ?_, ?_, ?_⟩ <;>
        simp_all [Event.rank, Event.frameOf]

theorem mem_mainLoop (args : Args) (env : Env) : ∀ gas c st0 f evs,
    (f, evs) ∈ (mainLoop args env gas c st0).1 →
    c ≤ f ∧ BlockCase args env f evs (mainLoop args env gas c st0).2 := by
  intro gas
  induction gas with
  | zero => intro c st0 f evs h; simp [mainLoop] at h
  | succ gas ih =>
    intro c st0 f evs h
    cases hf : fetchFrame args env c st0 with
    | unknownInput =>
      simp only [mainLoop, hf, List.mem_singleton, Prod.mk.injEq] at h
      obtain ⟨rfl, rfl⟩ := h
      refine ⟨le_refl _, st0, Or.inl ⟨hf, rfl, ?_⟩⟩
      simp [mainLoop, hf]
    | fetched img ld st1 evs0 =>
      rcases img with _ | img
      · simp only [mainLoop, hf, List.mem_singleton, Prod.mk.injEq] at h
        obtain ⟨rfl, rfl⟩ := h
        refine ⟨le_refl _, st0, Or.inr (Or.inl ⟨ld, st1, evs, hf, rfl, ?_⟩)⟩
        simp [mainLoop, hf]
      · by_cases hend : c + 1 > args.end_frame
        · simp only [mainLoop, hf, hend, if_true, List.mem_singleton, Prod.mk.injEq] at h
          obtain ⟨rfl, rfl⟩ := h
          refine ⟨le_refl _, st0, Or.inr (Or.inr ⟨img, ld, st1, evs, hf,
            Or.inl ⟨hend, rfl, ?_⟩⟩)⟩
          simp [mainLoop, hf, hend]
        · rcases hp : processFrame args env c img ld st1 with ⟨evs2, o⟩ | ⟨st2, evs2⟩
          · simp only [mainLoop, hf, hend, if_false, hp, List.mem_singleton,
              Prod.mk.injEq] at h
            obtain ⟨rfl, rfl⟩ := h
            refine ⟨le_refl _, st0, Or.inr (Or.inr ⟨img, ld, st1, evs0, hf,
              Or.inr ⟨by omega, Or.inl ⟨evs2, o, hp, rfl, ?_⟩⟩⟩)⟩
            simp [mainLoop, hf, hend, hp]
          · simp only [mainLoop, hf, hend, if_false, hp, List.mem_cons,
              Prod.mk.injEq] at h
            have hout : (mainLoop args env (gas + 1) c st0).2 =
                (mainLoop args env gas (c + 1) st2).2 := by
              simp [mainLoop, hf, hend, hp]
            rcases h with ⟨rfl, rfl⟩ | h
            · exact ⟨le_refl _, st0, Or.inr (Or.inr ⟨img, ld, st1, evs0, hf,
                Or.inr ⟨by omega, Or.inr ⟨st2, evs2, hp, rfl⟩⟩⟩)⟩
            · obtain ⟨hle, hbc⟩ := ih (c + 1) st2 f evs h
              rw [hout]
              exact ⟨by omega, hbc⟩

theorem evseg_nil (c lo hi : Nat) : EvSeg c lo hi ([] : List Event) := by
  simp [EvSeg]

theorem evseg_one (c lo hi : Nat) (e : Event) (h1 : e.frameOf = some c)
    (h2 : lo ≤ e.rank) (h3 : e.rank ≤ hi) : EvSeg c lo hi [e] := by
  simp [EvSeg, h1, h2, h3]

theorem regressOn_evseg (args : Args) (env : Env) (c : Nat) (img : Image)
    (hand : List HandBBoxEntry) (st : LoopState) (evs : List Event)
    (h : EvSeg c 2 4 evs) : EvSeg c 2 10 (regressOn args env c img hand st evs).evs := by
  rcases regressOn_cases args env c img hand st evs with
    ⟨o, _, heq⟩ | ⟨p0, rest, lh, hp, hl, heq⟩
  · rw [heq]
    exact (h.append (evseg_one c 5 5 (Event.regressed c (env.regress img hand)) rfl
        (by simp [Event.rank]) (by simp [Event.rank]))
      (by omega) (by omega) (by omega)).mono (le_refl _) (by omega)
  · rw [heq]
    have e1 : EvSeg c 2 5 (evs ++ [Event.regressed c (env.regress img hand)]) :=
      h.append (evseg_one c 5 5 (Event.regressed c (env.regress img hand)) rfl
          (by simp [Event.rank]) (by simp [Event.rank]))
        (by omega) (by omega) (by omega)
    have e2 : EvSeg c 6 7 [Event.updatePointCloud c (negYTransform lh.pred_joints_smpl),
        Event.visualize c] := by
      refine ⟨by simp [Event.frameOf], ?_, by simp [Event.rank]⟩
      simp [Event.rank, List.chain'_cons]
    have e3 : EvSeg c 8 8 (if args.no_display then [] else [Event.display c]) := by
      by_cases hd : args.no_display = true
      · rw [if_pos hd]; exact evseg_nil c 8 8
      · rw [if_neg hd]
        exact evseg_one c 8 8 (Event.display c) rfl (by simp [Event.rank])
          (by simp [Event.rank])
    have e4 : EvSeg c 9 9 (if args.out_dir ≠ none then [Event.saveResImg c] else []) := by
      by_cases hd : args.out_dir ≠ none
      · rw [if_pos hd]
        exact evseg_one c 9 9 (Event.saveResImg c) rfl (by simp [Event.rank])
          (by simp [Event.rank])
      · rw [if_neg hd]; exact evseg_nil c 9 9
    have e5 : EvSeg c 10 10 (if args.save_pred_pkl then [Event.savePredPkl c] else []) := by
      by_cases hd : args.save_pred_pkl = true
      · rw [if_pos hd]
        exact evseg_one c 10 10 (Event.savePredPkl c) rfl (by simp [Event.rank])
          (by simp [Event.rank])
      · rw [if_neg hd]; exact evseg_nil c 10 10
    exact ((((e1.append e2 (by omega) (by omega) (by omega)).append e3
      (by omega) (by omega) (by omega)).append e4
      (by omega) (by omega) (by omega)).append e5
      (by omega) (by omega) (by omega))

theorem emptyCheck_evseg (args : Args) (env : Env) (c : Nat) (img : Image)
    (st : LoopState) (evs : List Event) (h : EvSeg c 2 3 evs) :
    EvSeg c 2 10 (emptyCheckAndRest args env c img st evs).evs := by
  rcases emptyCheck_cases args env c img st evs with
    ⟨_, heq⟩ | ⟨_, heq⟩ | ⟨hand, _, _, heq⟩
  · rw [heq]; exact h.mono (le_refl _) (by omega)
  · rw [heq]
    exact (h.append (evseg_one c 4 4 (Event.printNoHand c) rfl (by simp [Event.rank])
        (by simp [Event.rank]))
      (by omega) (by omega) (by omega)).mono (le_refl _) (by omega)
  · rw [heq]; exact regressOn_evseg args env c img hand st evs (h.mono (le_refl _) (by omega))

theorem jsonAndRest_evseg (args : Args) (env : Env) (c : Nat) (img : Image)
    (st : LoopState) (evs : List Event) (h : EvSeg c 2 2 evs) :
    EvSeg c 2 10 (jsonAndRest args env c img st evs).evs := by
  rcases jsonAndRest_cases args env c img st evs with
    ⟨_, heq⟩ | ⟨_, _, heq⟩ | ⟨_, _, _, heq⟩ | ⟨body, hand, _, _, _, heq⟩
  · rw [heq]; exact emptyCheck_evseg args env c img st evs (h.mono (le_refl _) (by omega))
  · rw [heq]; exact h.mono (le_refl _) (by omega)
  · rw [heq]; exact h.mono (le_refl _) (by omega)
  · rw [heq]
    exact emptyCheck_evseg args env c img st _
      (h.append (evseg_one c 3 3 (Event.saveBboxJson c body hand) rfl
          (by simp [Event.rank]) (by simp [Event.rank]))
        (by omega) (by omega) (by omega))

theorem processFrame_evseg (args : Args) (env : Env) (c : Nat) (img : Image)
    (ld : Bool) (st : LoopState) :
    EvSeg c 2 10 (processFrame args env c img ld st).evs := by
  rcases processFrame_cases args env c img ld st with
    ⟨_, heq⟩ | ⟨_, _, heq⟩ | ⟨_, _, heq⟩ | ⟨_, _, _, heq⟩ <;> rw [heq]
  · exact jsonAndRest_evseg args env c img st _
      (evseg_one c 2 2 (Event.bboxPrecomputed c) rfl (by simp [Event.rank])
        (by simp [Event.rank]))
  · exact jsonAndRest_evseg args env c img _ _
      (evseg_one c 2 2 (Event.bboxSynthesized c [wholeImageBox img]) rfl
        (by simp [Event.rank]) (by simp [Event.rank]))
  · exact jsonAndRest_evseg args env c img _ _
      (evseg_one c 2 2 (Event.bboxDetected c) rfl (by simp [Event.rank])
        (by simp [Event.rank]))
  · exact evseg_nil c 2 10

theorem blockCase_evseg {args : Args} {env : Env} {f : Nat} {evs : List Event}
    {oc : Outcome} (h : BlockCase args env f evs oc) : EvSeg f 0 10 evs := by
  obtain ⟨st, h⟩ := h
  rcases h with ⟨_, rfl, _⟩ | ⟨ld, st1, evs0, hfe, rfl, _⟩ |
    ⟨img, ld, st1, evs0, hfe, ⟨_, rfl, _⟩ | ⟨_, ⟨evs2, o, hp, rfl, _⟩ | ⟨st2, evs2, hp, rfl⟩⟩⟩
  · exact evseg_nil f 0 10
  · rw [fetch_none_evs hfe]; exact evseg_nil f 0 10
  · exact ((fetch_some_spec hfe).1).mono (le_refl _) (by omega)
  · have h2 : EvSeg f 2 10 evs2 := by
      have := processFrame_evseg args env f img ld st1
      rw [hp] at this; exact this
    exact ((fetch_some_spec hfe).1).append h2 (by omega) (by omega) (by omega)
  · have h2 : EvSeg f 2 10 evs2 := by
      have := processFrame_evseg args env f img ld st1
      rw [hp] at this; exact this
    exact ((fetch_some_spec hfe).1).append h2 (by omega) (by omega) (by omega)

theorem mainLoop_pairwise (args : Args) (env : Env) : ∀ gas c st0,
    List.Pairwise (fun p q => p.1 < q.1) (mainLoop args env gas c st0).1 := by
  intro gas
  induction gas with
  | zero => intro c st0; simp [mainLoop]
  | succ gas ih =>
    intro c st0
    cases hf : fetchFrame args env c st0 with
    | unknownInput => simp [mainLoop, hf]
    | fetched img ld st1 evs0 =>
      rcases img with _ | img
      · simp [mainLoop, hf]
      · by_cases hend : c + 1 > args.end_frame
        · simp [mainLoop, hf, hend]
        · rcases hp : processFrame args env c img ld st1 with ⟨evs2, o⟩ | ⟨st2, evs2⟩
          · simp [mainLoop, hf, hend, hp]
          · simp only [mainLoop, hf, hend, if_false, hp]
            refine List.pairwise_cons.2 ⟨?_, ih (c + 1) st2⟩
            intro q hq
            have := (mem_mainLoop args env gas (c + 1) st2 q.1 q.2 (by simpa using hq)).1
            simpa using by omega

theorem run_outdir_none {args : Args} (env : Env) (h : args.out_dir = none) :
    run_hand_mocap args env = ⟨[], [], .assertOutDirNone⟩ := by
  simp [run_hand_mocap, h]

theorem run_frames_outcome_eq {args : Args} (env : Env) (h : args.out_dir ≠ none) :
    (run_hand_mocap args env).frames =
      (mainLoop args env (gas0 args) args.start_frame ⟨none, none⟩).1 ∧
    (run_hand_mocap args env).outcome =
      (mainLoop args env (gas0 args) args.start_frame ⟨none, none⟩).2 := by
  rcases ho : (mainLoop args env (gas0 args) args.start_frame ⟨none, none⟩).2 <;>
    constructor <;> simp [run_hand_mocap, if_neg h, ho]

theorem run_post_ok {args : Args} {env : Env}
    (ho : (run_hand_mocap args env).outcome = .ok) :
    (run_hand_mocap args env).post =
      (if ¬args.no_video_out ∧ (env.input_type = "video" ∨ env.input_type = "webcam")
        then [Event.genVideoOut] else []) ++
      (if env.input_type = "webcam" ∧ env.capture_some
        then [Event.releaseCapture] else []) := by
  by_cases h : args.out_dir = none
  · rw [run_outdir_none env h] at ho; cases ho
  · rcases hl : (mainLoop args env (gas0 args) args.start_frame ⟨none, none⟩).2 <;>
      simp only [run_hand_mocap, if_neg h, hl] <;>
      first
        | rfl
        | (exfalso
           have := (run_frames_outcome_eq env h).2
           rw [ho, hl] at this
           cases this)

theorem run_post_not_ok {args : Args} {env : Env}
    (ho : (run_hand_mocap args env).outcome ≠ .ok) :
    (run_hand_mocap args env).post = [] := by
  by_cases h : args.out_dir = none
  · rw [run_outdir_none env h]
  · rcases hl : (mainLoop args env (gas0 args) args.start_frame ⟨none, none⟩).2 <;>
      simp only [run_hand_mocap, if_neg h, hl] <;>
      first
        | rfl
        | (exfalso
           apply ho
           have := (run_frames_outcome_eq env h).2
           rw [this, hl])

theorem mem_trace_iff {r : RunResult} {e : Event} :
    e ∈ r.trace ↔ (∃ p, p ∈ r.frames ∧ e ∈ p.2) ∨ e ∈ r.post := by
  simp only [RunResult.trace, List.mem_append, List.mem_flatten, List.mem_map]
  constructor
  · rintro (⟨l, ⟨p, hp, rfl⟩, he⟩ | h)
    · exact Or.inl ⟨p, hp, he⟩
    · exact Or.inr h
  · rintro (⟨p, hp, he⟩ | h)
    · exact Or.inl ⟨p.2, ⟨p, hp, rfl⟩, he⟩
    · exact Or.inr h

theorem mem_frames_run {args : Args} {env : Env} {f : Nat} {evs : List Event}
    (h : (f, evs) ∈ (run_hand_mocap args env).frames) :
    args.out_dir ≠ none ∧ args.start_frame ≤ f ∧
      BlockCase args env f evs (run_hand_mocap args env).outcome := by
  by_cases hd : args.out_dir = none
  · rw [run_outdir_none env hd] at h; cases h
  · obtain ⟨hfr, ho⟩ := run_frames_outcome_eq env hd
    rw [hfr] at h
    have h2 := mem_mainLoop args env (gas0 args) args.start_frame ⟨none, none⟩ f evs h
    rw [← ho] at h2
    exact ⟨hd, h2.1, h2.2⟩

theorem run_block_frameOf {args : Args} {env : Env} {f : Nat} {evs : List Event}
    {e : Event} (h : (f, evs) ∈ (run_hand_mocap args env).frames) (he : e ∈ evs) :
    e.frameOf = some f :=
  (blockCase_evseg (mem_frames_run h).2.2).1 e he

theorem run_frames_pairwise (args : Args) (env : Env) :
    List.Pairwise (fun p q => p.1 < q.1) (run_hand_mocap args env).frames := by
  by_cases hd : args.out_dir = none
  · rw [run_outdir_none env hd]; simp
  · rw [(run_frames_outcome_eq env hd).1]
    exact mainLoop_pairwise args env (gas0 args) args.start_frame ⟨none, none⟩

theorem EvSeg.not_mem_hi {c lo hi : Nat} {evs : List Event} (h : EvSeg c lo hi evs)
    {e : Event} (hr : hi < e.rank) : e ∉ evs :=
  fun he => absurd (h.2.2 e he).2 (by omega)

theorem EvSeg.not_mem_lo {c lo hi : Nat} {evs : List Event} (h : EvSeg c lo hi evs)
    {e : Event} (hr : e.rank < lo) : e ∉ evs :=
  fun he => absurd (h.2.2 e he).1 (by omega)

theorem regressOn_decomp (args : Args) (env : Env) (c : Nat) (img : Image)
    (hand : List HandBBoxEntry) (st : LoopState) (evs : List Event) :
    ∃ tail, (regressOn args env c img hand st evs).evs = evs ++ tail ∧
      EvSeg c 5 10 tail ∧ Event.regressed c (env.regress img hand) ∈ tail := by
  rcases regressOn_cases args env c img hand st evs with
    ⟨o, _, heq⟩ | ⟨p0, rest, lh, hp, hl, heq⟩
  · refine ⟨[Event.regressed c (env.regress img hand)], by rw [heq]; rfl, ?_, by simp⟩
    exact evseg_one c 5 10 _ rfl (by simp [Event.rank]) (by simp [Event.rank])
  · refine ⟨[Event.regressed c (env.regress img hand),
      Event.updatePointCloud c (negYTransform lh.pred_joints_smpl), Event.visualize c] ++
      (if args.no_display then [] else [Event.display c]) ++
      (if args.out_dir ≠ none then [Event.saveResImg c] else []) ++
      (if args.save_pred_pkl then [Event.savePredPkl c] else []), ?_, ?_, by simp⟩
    · rw [heq]; simp [IterStep.evs, List.append_assoc]
    · have e1 : EvSeg c 5 7 [Event.regressed c (env.regress img hand),
          Event.updatePointCloud c (negYTransform lh.pred_joints_smpl),
          Event.visualize c] := by
        refine ⟨by simp [Event.frameOf], ?_, by simp [Event.rank]⟩
        simp [Event.rank, List.chain'_cons]
      have e3 : EvSeg c 8 8 (if args.no_display then [] else [Event.display c]) := by
        by_cases hd : args.no_display = true
        · rw [if_pos hd]; exact evseg_nil c 8 8
        · rw [if_neg hd]
          exact evseg_one c 8 8 (Event.display c) rfl (by simp [Event.rank])
            (by simp [Event.rank])
      have e4 : EvSeg c 9 9 (if args.out_dir ≠ none then [Event.saveResImg c] else []) := by
        by_cases hd : args.out_dir ≠ none
        · rw [if_pos hd]
          exact evseg_one c 9 9 (Event.saveResImg c) rfl (by simp [Event.rank])
            (by simp [Event.rank])
        · rw [if_neg hd]; exact evseg_nil c 9 9
      have e5 : EvSeg c 10 10 (if args.save_pred_pkl then [Event.savePredPkl c] else []) := by
        by_cases hd : args.save_pred_pkl = true
        · rw [if_pos hd]
          exact evseg_one c 10 10 (Event.savePredPkl c) rfl (by simp [Event.rank])
            (by simp [Event.rank])
        · rw [if_neg hd]; exact evseg_nil c 10 10
      exact ((e1.append e3 (by omega) (by omega) (by omega)).append e4
        (by omega) (by omega) (by omega)).append e5 (by omega) (by omega) (by omega)

theorem emptyCheck_decomp (args : Args) (env : Env) (c : Nat) (img : Image)
    (st : LoopState) (evs : List Event) :
    ∃ tail, (emptyCheckAndRest args env c img st evs).evs = evs ++ tail ∧
      EvSeg c 4 10 tail := by
  rcases emptyCheck_cases args env c img st evs with
    ⟨_, heq⟩ | ⟨_, heq⟩ | ⟨hand, _, _, heq⟩
  · exact ⟨[], by rw [heq]; simp [IterStep.evs], evseg_nil c 4 10⟩
  · exact ⟨[Event.printNoHand c], by rw [heq]; rfl,
      evseg_one c 4 10 _ rfl (by simp [Event.rank]) (by simp [Event.rank])⟩
  · obtain ⟨tail, ht, hseg, _⟩ := regressOn_decomp args env c img hand st evs
    exact ⟨tail, by rw [heq]; exact ht, hseg.mono (by omega) (le_refl _)⟩

theorem jsonAndRest_decomp (args : Args) (env : Env) (c : Nat) (img : Image)
    (st : LoopState) (evs : List Event) :
    ∃ tail, (jsonAndRest args env c img st evs).evs = evs ++ tail ∧
      EvSeg c 3 10 tail := by
  rcases jsonAndRest_cases args env c img st evs with
    ⟨_, heq⟩ | ⟨_, _, heq⟩ | ⟨_, _, _, heq⟩ | ⟨body, hand, _, _, _, heq⟩
  · obtain ⟨tail, ht, hseg⟩ := emptyCheck_decomp args env c img st evs
    exact ⟨tail, by rw [heq]; exact ht, hseg.mono (by omega) (le_refl _)⟩
  · exact ⟨[], by rw [heq]; simp [IterStep.evs], evseg_nil c 3 10⟩
  · exact ⟨[], by rw [heq]; simp [IterStep.evs], evseg_nil c 3 10⟩
  · obtain ⟨tail, ht, hseg⟩ := emptyCheck_decomp args env c img st
      (evs ++ [Event.saveBboxJson c body hand])
    refine ⟨[Event.saveBboxJson c body hand] ++ tail, ?_, ?_⟩
    · rw [heq, ht, List.append_assoc]
    · exact (evseg_one c 3 3 (Event.saveBboxJson c body hand) rfl
        (by simp [Event.rank]) (by simp [Event.rank])).append hseg
        (by omega) (by omega) (by omega)

theorem gas0_sufficient (args : Args) :
    args.end_frame + 1 - args.start_frame < gas0 args := by
  unfold gas0; omega

theorem mainLoop_head (args : Args) (env : Env) (gas c : Nat) (st0 : LoopState)
    (hgas : 0 < gas) :
    ∃ evs rest, (mainLoop args env gas c st0).1 = (c, evs) :: rest := by
  cases gas with
  | zero => omega
  | succ gas =>
    cases hf : fetchFrame args env c st0 with
    | unknownInput => exact ⟨[], [], by simp [mainLoop, hf]⟩
    | fetched img ld st1 evs0 =>
      rcases img with _ | img
      · exact ⟨evs0, [], by simp [mainLoop, hf]⟩
      · by_cases hend : c + 1 > args.end_frame
        · exact ⟨evs0, [], by simp [mainLoop, hf, hend]⟩
        · rcases hp : processFrame args env c img ld st1 with ⟨evs2, o⟩ | ⟨st2, evs2⟩
          · exact ⟨evs0 ++ evs2, [], by simp [mainLoop, hf, hend, hp]⟩
          · exact ⟨evs0 ++ evs2, (mainLoop args env gas (c + 1) st2).1,
              by simp [mainLoop, hf, hend, hp]⟩

theorem run_ok_outdir {args : Args} {env : Env}
    (h : (run_hand_mocap args env).outcome = .ok) : args.out_dir ≠ none := by
  intro hd
  rw [run_outdir_none env hd] at h
  cases h

theorem run_post_elems {args : Args} {env : Env} {e : Event}
    (h : e ∈ (run_hand_mocap args env).post) :
    e = Event.genVideoOut ∨ e = Event.releaseCapture := by
  by_cases ho : (run_hand_mocap args env).outcome = .ok
  · rw [run_post_ok ho] at h
    rcases List.mem_append.1 h with h1 | h1
    · left
      by_cases hc : ¬args.no_video_out ∧
          (env.input_type = "video" ∨ env.input_type = "webcam")
      · rw [if_pos hc] at h1; simpa using h1
      · rw [if_neg hc] at h1; cases h1
    · right
      by_cases hc : env.input_type = "webcam" ∧ env.capture_some = true
      · rw [if_pos hc] at h1; simpa using h1
      · rw [if_neg hc] at h1; cases h1
  · rw [run_post_not_ok ho] at h; cases h

theorem fetch_bboxdir_load {args : Args} {env : Env} {c : Nat} {st : LoopState}
    {img : Image} {ld : Bool} {st1 : LoopState} {evs0 : List Event}
    (ht : env.input_type = "bbox_dir")
    (h : fetchFrame args env c st = .fetched (some img) ld st1 evs0) : ld = true := by
  rcases fetchFrame_cases args env c st with
    ⟨h1, h2, _⟩ | ⟨h1, he⟩ | ⟨h1, ⟨hn, he⟩ | ⟨e, hee, he⟩⟩ | ⟨h1, he⟩
  · exact absurd ht h2
  · exact absurd h1 (by rw [ht]; decide)
  · rw [he] at h; cases h
  · rw [he] at h
    rcases hi : e.img with _ | i <;> rw [hi] at h
    · cases h
    · cases h; rfl
  · rcases h1 with h1 | h1 <;> exact absurd h1 (by rw [ht]; decide)

theorem fetch_sourceAt (args : Args) {env : Env} (c : Nat) (st : LoopState)
    (h4 : inputFour env) :
    ∃ ld st1 evs0, fetchFrame args env c st = .fetched (sourceAt env c) ld st1 evs0 := by
  rcases fetchFrame_cases args env c st with
    ⟨h1, h2, h3, h5, he⟩ | ⟨ht, he⟩ | ⟨ht, ⟨hn, he⟩ | ⟨e, hee, he⟩⟩ | ⟨ht, he⟩
  · rcases h4 with h | h | h | h <;> simp_all
  · have hs : sourceAt env c = (if c < env.image_dir_len then env.imread c else none) := by
      simp [sourceAt, ht]
    exact ⟨false, st, selEvs c (if c < env.image_dir_len then env.imread c else none),
      by rw [he, hs]⟩
  · have hs : sourceAt env c = none := by
      rw [sourceAt, ht]
      simp [hn, show ("bbox_dir" : String) ≠ "image_dir" from by decide]
    exact ⟨false, st, [], by rw [he, hs]⟩
  · have hs : sourceAt env c = e.img := by
      rw [sourceAt, ht]
      simp [hee, show ("bbox_dir" : String) ≠ "image_dir" from by decide]
    exact ⟨true, _, selEvs c e.img, by rw [he, hs]⟩
  · have hs : sourceAt env c = env.stream c := by
      rcases ht with ht | ht <;> rw [sourceAt, ht] <;>
        simp [show ("video" : String) ≠ "image_dir" from by decide,
          show ("video" : String) ≠ "bbox_dir" from by decide,
          show ("webcam" : String) ≠ "image_dir" from by decide,
          show ("webcam" : String) ≠ "bbox_dir" from by decide]
    exact ⟨false, st, _, by rw [he, hs]⟩

theorem regressOn_abort_ne_ok {args : Args} {env : Env} {c : Nat} {img : Image}
    {hand : List HandBBoxEntry} {st : LoopState} {evs evs2 : List Event} {o : Outcome}
    (h : regressOn args env c img hand st evs = .abort evs2 o) : o ≠ .ok := by
  rcases regressOn_cases args env c img hand st evs with
    ⟨o2, ho2, heq⟩ | ⟨_, _, _, _, _, heq⟩ <;> rw [heq] at h
  · cases h
    rcases ho2 with rfl | rfl | rfl | rfl | rfl <;> simp
  · cases h

theorem emptyCheck_abort_ne_ok {args : Args} {env : Env} {c : Nat} {img : Image}
    {st : LoopState} {evs evs2 : List Event} {o : Outcome}
    (h : emptyCheckAndRest args env c img st evs = .abort evs2 o) : o ≠ .ok := by
  rcases emptyCheck_cases args env c img st evs with
    ⟨_, heq⟩ | ⟨_, heq⟩ | ⟨hand, _, _, heq⟩ <;> rw [heq] at h
  · cases h; simp
  · cases h
  · exact regressOn_abort_ne_ok h

theorem jsonAndRest_abort_ne_ok {args : Args} {env : Env} {c : Nat} {img : Image}
    {st : LoopState} {evs evs2 : List Event} {o : Outcome}
    (h : jsonAndRest args env c img st evs = .abort evs2 o) : o ≠ .ok := by
  rcases jsonAndRest_cases args env c img st evs with
    ⟨_, heq⟩ | ⟨_, _, heq⟩ | ⟨_, _, _, heq⟩ | ⟨body, hand, _, _, _, heq⟩ <;> rw [heq] at h
  · exact emptyCheck_abort_ne_ok h
  · cases h; simp
  · cases h; simp
  · exact emptyCheck_abort_ne_ok h

theorem processFrame_abort_ne_ok {args : Args} {env : Env} {c : Nat} {img : Image}
    {ld : Bool} {st : LoopState} {evs2 : List Event} {o : Outcome}
    (h : processFrame args env c img ld st = .abort evs2 o) : o ≠ .ok := by
  rcases processFrame_cases args env c img ld st with
    ⟨_, heq⟩ | ⟨_, _, heq⟩ | ⟨_, _, heq⟩ | ⟨_, _, _, heq⟩ <;> rw [heq] at h
  · exact jsonAndRest_abort_ne_ok h
  · exact jsonAndRest_abort_ne_ok h
  · exact jsonAndRest_abort_ne_ok h
  · cases h; simp

theorem processFrame_evs_bbox (args : Args) (env : Env) (c : Nat) (img : Image)
    (ld : Bool) (st : LoopState) :
    (processFrame args env c img ld st).evs = [] ∨
    reachedBbox c (processFrame args env c img ld st).evs := by
  rcases processFrame_cases args env c img ld st with
    ⟨_, heq⟩ | ⟨_, _, heq⟩ | ⟨_, _, heq⟩ | ⟨_, _, _, heq⟩ <;> rw [heq]
  · obtain ⟨tail, ht, _⟩ := jsonAndRest_decomp args env c img st [Event.bboxPrecomputed c]
    exact Or.inr (Or.inl (by rw [ht]; simp))
  · obtain ⟨tail, ht, _⟩ := jsonAndRest_decomp args env c img
      { st with hand_bbox_list := some [wholeImageBox img] }
      [Event.bboxSynthesized c [wholeImageBox img]]
    exact Or.inr (Or.inr (Or.inl ⟨[wholeImageBox img], by rw [ht]; simp⟩))
  · obtain ⟨tail, ht, _⟩ := jsonAndRest_decomp args env c img
      { hand_bbox_list := some (env.detect_hand_bbox img).hand_bbox_list,
        body_bbox_list := some (env.detect_hand_bbox img).body_bbox_list }
      [Event.bboxDetected c]
    exact Or.inr (Or.inr (Or.inr (by rw [ht]; simp)))
  · exact Or.inl rfl

theorem processFrame_cont_reached {args : Args} {env : Env} {c : Nat} {img : Image}
    {ld : Bool} {st st2 : LoopState} {evs2 : List Event}
    (h : processFrame args env c img ld st = .cont st2 evs2) : reachedBbox c evs2 := by
  have hevs : (processFrame args env c img ld st).evs = evs2 := by rw [h]; rfl
  rcases processFrame_evs_bbox args env c img ld st with hnil | hr
  · rw [hevs] at hnil
    subst hnil
    rcases processFrame_cases args env c img ld st with
      ⟨_, heq⟩ | ⟨_, _, heq⟩ | ⟨_, _, heq⟩ | ⟨_, _, _, heq⟩ <;> rw [heq] at h
    · obtain ⟨tail, ht, _⟩ := jsonAndRest_decomp args env c img st [Event.bboxPrecomputed c]
      rw [h] at ht
      cases ht
    · obtain ⟨tail, ht, _⟩ := jsonAndRest_decomp args env c img
        { st with hand_bbox_list := some [wholeImageBox img] }
        [Event.bboxSynthesized c [wholeImageBox img]]
      rw [h] at ht
      cases ht
    · obtain ⟨tail, ht, _⟩ := jsonAndRest_decomp args env c img
        { hand_bbox_list := some (env.detect_hand_bbox img).hand_bbox_list,
          body_bbox_list := some (env.detect_hand_bbox img).body_bbox_list }
        [Event.bboxDetected c]
      rw [h] at ht
      cases ht
    · cases h
  · rw [hevs] at hr
    exact hr

theorem regressOn_vis_save {args : Args} {env : Env} {c : Nat} {img : Image}
    {hand : List HandBBoxEntry} {st : LoopState} {evs : List Event}
    (hout : args.out_dir ≠ none) (hseg : EvSeg c 2 4 evs)
    (h : Event.visualize c ∈ (regressOn args env c img hand st evs).evs) :
    Event.saveResImg c ∈ (regressOn args env c img hand st evs).evs := by
  have hv : Event.visualize c ∉ evs := hseg.not_mem_hi (by simp [Event.rank])
  rcases regressOn_cases args env c img hand st evs with
    ⟨o, _, heq⟩ | ⟨p0, rest, lh, hp, hl, heq⟩ <;> rw [heq] at h ⊢
  · simp only [IterStep.evs, List.mem_append, List.mem_singleton] at h
    rcases h with h | h
    · exact absurd h hv
    · cases h
  · simp [IterStep.evs, hout]

theorem emptyCheck_vis_save {args : Args} {env : Env} {c : Nat} {img : Image}
    {st : LoopState} {evs : List Event}
    (hout : args.out_dir ≠ none) (hseg : EvSeg c 2 3 evs)
    (h : Event.visualize c ∈ (emptyCheckAndRest args env c img st evs).evs) :
    Event.saveResImg c ∈ (emptyCheckAndRest args env c img st evs).evs := by
  have hv : Event.visualize c ∉ evs := hseg.not_mem_hi (by simp [Event.rank])
  rcases emptyCheck_cases args env c img st evs with
    ⟨_, heq⟩ | ⟨_, heq⟩ | ⟨hand, _, _, heq⟩ <;> rw [heq] at h ⊢
  · exact absurd h hv
  · simp only [IterStep.evs, List.mem_append, List.mem_singleton] at h
    rcases h with h | h
    · exact absurd h hv
    · cases h
  · exact regressOn_vis_save hout (hseg.mono (le_refl _) (by omega)) h

theorem jsonAndRest_vis_save {args : Args} {env : Env} {c : Nat} {img : Image}
    {st : LoopState} {evs : List Event}
    (hout : args.out_dir ≠ none) (hseg : EvSeg c 2 2 evs)
    (h : Event.visualize c ∈ (jsonAndRest args env c img st evs).evs) :
    Event.saveResImg c ∈ (jsonAndRest args env c img st evs).evs := by
  have hv : Event.visualize c ∉ evs := hseg.not_mem_hi (by simp [Event.rank])
  rcases jsonAndRest_cases args env c img st evs with
    ⟨_, heq⟩ | ⟨_, _, heq⟩ | ⟨_, _, _, heq⟩ | ⟨body, hand, _, _, _, heq⟩ <;> rw [heq] at h ⊢
  · exact emptyCheck_vis_save hout (hseg.mono (le_refl _) (by omega)) h
  · exact absurd h hv
  · exact absurd h hv
  · refine emptyCheck_vis_save hout ?_ h
    exact hseg.append (evseg_one c 3 3 (Event.saveBboxJson c body hand) rfl
      (by simp [Event.rank]) (by simp [Event.rank])) (by omega) (by omega) (by omega)

theorem processFrame_vis_save {args : Args} {env : Env} {c : Nat} {img : Image}
    {ld : Bool} {st : LoopState}
    (hout : args.out_dir ≠ none)
    (h : Event.visualize c ∈ (processFrame args env c img ld st).evs) :
    Event.saveResImg c ∈ (processFrame args env c img ld st).evs := by
  rcases processFrame_cases args env c img ld st with
    ⟨_, heq⟩ | ⟨_, _, heq⟩ | ⟨_, _, heq⟩ | ⟨_, _, _, heq⟩ <;> rw [heq] at h ⊢
  · exact jsonAndRest_vis_save hout (evseg_one c 2 2 (Event.bboxPrecomputed c) rfl
      (by simp [Event.rank]) (by simp [Event.rank])) h
  · exact jsonAndRest_vis_save hout (evseg_one c 2 2
      (Event.bboxSynthesized c [wholeImageBox img]) rfl
      (by simp [Event.rank]) (by simp [Event.rank])) h
  · exact jsonAndRest_vis_save hout (evseg_one c 2 2 (Event.bboxDetected c) rfl
      (by simp [Event.rank]) (by simp [Event.rank])) h
  · cases h

theorem regressOn_no_noHand {args : Args} {env : Env} {c : Nat} {img : Image}
    {hand : List HandBBoxEntry} {st : LoopState} {evs : List Event}
    (hn : Event.printNoHand c ∉ evs) :
    Event.printNoHand c ∉ (regressOn args env c img hand st evs).evs := by
  obtain ⟨tail, ht, hseg, _⟩ := regressOn_decomp args env c img hand st evs
  rw [ht]
  intro hmem
  rcases List.mem_append.1 hmem with h | h
  · exact hn h
  · exact hseg.not_mem_lo (by simp [Event.rank]) h

theorem emptyCheck_noHand {args : Args} {env : Env} {c : Nat} {img : Image}
    {st : LoopState} {evs : List Event}
    (hn : Event.printNoHand c ∉ evs)
    (h : Event.printNoHand c ∈ (emptyCheckAndRest args env c img st evs).evs) :
    st.hand_bbox_list = some [] ∧
    emptyCheckAndRest args env c img st evs = .cont st (evs ++ [Event.printNoHand c]) := by
  rcases emptyCheck_cases args env c img st evs with
    ⟨_, heq⟩ | ⟨hh, heq⟩ | ⟨hand, _, _, heq⟩
  · rw [heq] at h
    exact absurd h hn
  · exact ⟨hh, heq⟩
  · rw [heq] at h
    exact absurd h (regressOn_no_noHand hn)

theorem jsonAndRest_noHand {args : Args} {env : Env} {c : Nat} {img : Image}
    {st : LoopState} {evs : List Event}
    (hn : Event.printNoHand c ∉ evs)
    (h : Event.printNoHand c ∈ (jsonAndRest args env c img st evs).evs) :
    st.hand_bbox_list = some [] ∧
    ((args.save_bbox_output = true ∧ ∃ body, st.body_bbox_list = some body ∧
        jsonAndRest args env c img st evs =
          .cont st ((evs ++ [Event.saveBboxJson c body []]) ++ [Event.printNoHand c])) ∨
      (args.save_bbox_output = false ∧
        jsonAndRest args env c img st evs = .cont st (evs ++ [Event.printNoHand c]))) := by
  rcases jsonAndRest_cases args env c img st evs with
    ⟨hs, heq⟩ | ⟨_, _, heq⟩ | ⟨_, _, _, heq⟩ | ⟨body, hand, hs, hb, hh, heq⟩
  · rw [heq] at h
    obtain ⟨hhand, hres⟩ := emptyCheck_noHand hn h
    exact ⟨hhand, Or.inr ⟨hs, by rw [heq, hres]⟩⟩
  · rw [heq] at h
    exact absurd h hn
  · rw [heq] at h
    exact absurd h hn
  · rw [heq] at h
    have hn2 : Event.printNoHand c ∉ evs ++ [Event.saveBboxJson c body hand] := by
      intro hmem
      rcases List.mem_append.1 hmem with h2 | h2
      · exact hn h2
      · simp at h2
    obtain ⟨hhand, hres⟩ := emptyCheck_noHand hn2 h
    rw [hh] at hhand
    have : hand = [] := by injection hhand
    subst this
    exact ⟨hh, Or.inl ⟨hs, body, hb, by rw [heq, hres]⟩⟩

theorem processFrame_noHand {args : Args} {env : Env} {c : Nat} {img : Image}
    {ld : Bool} {st : LoopState}
    (h : Event.printNoHand c ∈ (processFrame args env c img ld st).evs) :
    ∃ st2 L, processFrame args env c img ld st = .cont st2 L ∧ EvSeg c 2 4 L ∧
      Event.printNoHand c ∈ L ∧
      (args.save_bbox_output = true → ∃ body, Event.saveBboxJson c body [] ∈ L) := by
  have build : ∀ b : Event, b.frameOf = some c → b.rank = 2 → ∀ st1 : LoopState,
      Event.printNoHand c ∈ (jsonAndRest args env c img st1 [b]).evs →
      ∃ st2 L, jsonAndRest args env c img st1 [b] = .cont st2 L ∧ EvSeg c 2 4 L ∧
        Event.printNoHand c ∈ L ∧
        (args.save_bbox_output = true → ∃ body, Event.saveBboxJson c body [] ∈ L) := by
    intro b hbf hbr st1 hmem
    have hn : Event.printNoHand c ∉ [b] := by
      intro h2
      rw [List.mem_singleton] at h2
      rw [← h2] at hbr
      simp [Event.rank] at hbr
    obtain ⟨hhand, hcase | hcase⟩ := jsonAndRest_noHand hn hmem
    · obtain ⟨hs, body, hb, hres⟩ := hcase
      refine ⟨st1, _, hres, ?_, by simp, fun _ => ⟨body, by simp⟩⟩
      have e1 : EvSeg c 2 2 [b] := evseg_one c 2 2 b hbf (by omega) (by omega)
      have e2 : EvSeg c 3 3 [Event.saveBboxJson c body []] :=
        evseg_one c 3 3 _ rfl (by simp [Event.rank]) (by simp [Event.rank])
      have e3 : EvSeg c 4 4 [Event.printNoHand c] :=
        evseg_one c 4 4 _ rfl (by simp [Event.rank]) (by simp [Event.rank])
      exact (e1.append e2 (by omega) (by omega) (by omega)).append e3
        (by omega) (by omega) (by omega)
    · obtain ⟨hs, hres⟩ := hcase
      refine ⟨st1, _, hres, ?_, by simp, fun ht2 => by rw [hs] at ht2; cases ht2⟩
      have e1 : EvSeg c 2 2 [b] := evseg_one c 2 2 b hbf (by omega) (by omega)
      have e3 : EvSeg c 4 4 [Event.printNoHand c] :=
        evseg_one c 4 4 _ rfl (by simp [Event.rank]) (by simp [Event.rank])
      exact (e1.append e3 (by omega) (by omega) (by omega)).mono (le_refl _) (by omega)
  rcases processFrame_cases args env c img ld st with
    ⟨_, heq⟩ | ⟨_, _, heq⟩ | ⟨_, _, heq⟩ | ⟨_, _, _, heq⟩ <;> rw [heq] at h ⊢
  · exact build (Event.bboxPrecomputed c) rfl rfl st h
  · exact build (Event.bboxSynthesized c [wholeImageBox img]) rfl rfl _ h
  · exact build (Event.bboxDetected c) rfl rfl _ h
  · cases h

theorem regressOn_regressed_eq {args : Args} {env : Env} {c : Nat} {img : Image}
    {hand : List HandBBoxEntry} {st : LoopState} {evs : List Event} {preds : List PredOutput}
    (hseg : EvSeg c 2 4 evs)
    (h : Event.regressed c preds ∈ (regressOn args env c img hand st evs).evs) :
    preds = env.regress img hand := by
  have hn : Event.regressed c preds ∉ evs := hseg.not_mem_hi (by simp [Event.rank])
  rcases regressOn_cases args env c img hand st evs with
    ⟨o, _, heq⟩ | ⟨p0, rest, lh, hp, hl, heq⟩ <;> rw [heq] at h
  · simp only [IterStep.evs, List.mem_append, List.mem_singleton] at h
    rcases h with h | h
    · exact absurd h hn
    · cases h; rfl
  · by_cases d1 : args.no_display = true <;>
    by_cases d2 : args.out_dir ≠ none <;>
    by_cases d3 : args.save_pred_pkl = true <;>
    simp [IterStep.evs, hn, d1, d2, d3] at h <;>
    exact h

theorem regressOn_pcd_eq {args : Args} {env : Env} {c : Nat} {img : Image}
    {hand : List HandBBoxEntry} {st : LoopState} {evs : List Event} {pts : List Joint}
    (hseg : EvSeg c 2 4 evs)
    (h : Event.updatePointCloud c pts ∈ (regressOn args env c img hand st evs).evs) :
    ∃ p0 rest lh, env.regress img hand = p0 :: rest ∧ p0.left_hand = some lh ∧
      pts = negYTransform lh.pred_joints_smpl := by
  have hn : Event.updatePointCloud c pts ∉ evs := hseg.not_mem_hi (by simp [Event.rank])
  rcases regressOn_cases args env c img hand st evs with
    ⟨o, _, heq⟩ | ⟨p0, rest, lh, hp, hl, heq⟩ <;> rw [heq] at h
  · simp only [IterStep.evs, List.mem_append, List.mem_singleton] at h
    rcases h with h | h
    · exact absurd h hn
    · cases h
  · refine ⟨p0, rest, lh, hp, hl, ?_⟩
    by_cases d1 : args.no_display = true <;>
    by_cases d2 : args.out_dir ≠ none <;>
    by_cases d3 : args.save_pred_pkl = true <;>
    simp [IterStep.evs, hn, d1, d2, d3] at h <;>
    exact h

theorem regressOn_leftnone {args : Args} {env : Env} {c : Nat} {img : Image}
    {hand : List HandBBoxEntry} {st : LoopState} {evs : List Event}
    {p0 : PredOutput} {rest : List PredOutput}
    (hseg : EvSeg c 2 4 evs)
    (hpe : env.regress img hand = p0 :: rest) (hl : p0.left_hand = none) :
    ∃ evs2 o, regressOn args env c img hand st evs = .abort evs2 o ∧
      (∀ pts, Event.updatePointCloud c pts ∉ evs2) ∧ Event.visualize c ∉ evs2 := by
  rcases regressOn_cases args env c img hand st evs with
    ⟨o, _, heq⟩ | ⟨q0, qrest, lh, hq, hlh, heq⟩
  · refine ⟨_, o, heq, ?_, ?_⟩
    · intro pts hmem
      rcases List.mem_append.1 hmem with h2 | h2
      · exact hseg.not_mem_hi (by simp [Event.rank]) h2
      · simp at h2
    · intro hmem
      rcases List.mem_append.1 hmem with h2 | h2
      · exact hseg.not_mem_hi (by simp [Event.rank]) h2
      · simp at h2
  · rw [hpe] at hq
    have : q0 = p0 := by injection hq with h1 _; exact h1.symm
    subst this
    rw [hl] at hlh
    cases hlh

theorem emptyCheck_regressed_eq {args : Args} {env : Env} {c : Nat} {img : Image}
    {st : LoopState} {evs : List Event} {preds : List PredOutput}
    (hseg : EvSeg c 2 3 evs)
    (h : Event.regressed c preds ∈ (emptyCheckAndRest args env c img st evs).evs) :
    ∃ hand, st.hand_bbox_list = some hand ∧ preds = env.regress img hand := by
  have hn : Event.regressed c preds ∉ evs := hseg.not_mem_hi (by simp [Event.rank])
  rcases emptyCheck_cases args env c img st evs with
    ⟨_, heq⟩ | ⟨_, heq⟩ | ⟨hand, hh, _, heq⟩ <;> rw [heq] at h
  · exact absurd h hn
  · simp only [IterStep.evs, List.mem_append, List.mem_singleton] at h
    rcases h with h | h
    · exact absurd h hn
    · cases h
  · exact ⟨hand, hh, regressOn_regressed_eq (hseg.mono (le_refl _) (by omega)) h⟩

theorem emptyCheck_pcd_eq {args : Args} {env : Env} {c : Nat} {img : Image}
    {st : LoopState} {evs : List Event} {pts : List Joint}
    (hseg : EvSeg c 2 3 evs)
    (h : Event.updatePointCloud c pts ∈ (emptyCheckAndRest args env c img st evs).evs) :
    ∃ hand, st.hand_bbox_list = some hand ∧
      ∃ p0 rest lh, env.regress img hand = p0 :: rest ∧ p0.left_hand = some lh ∧
        pts = negYTransform lh.pred_joints_smpl := by
  have hn : Event.updatePointCloud c pts ∉ evs := hseg.not_mem_hi (by simp [Event.rank])
  rcases emptyCheck_cases args env c img st evs with
    ⟨_, heq⟩ | ⟨_, heq⟩ | ⟨hand, hh, _, heq⟩ <;> rw [heq] at h
  · exact absurd h hn
  · simp only [IterStep.evs, List.mem_append, List.mem_singleton] at h
    rcases h with h | h
    · exact absurd h hn
    · cases h
  · exact ⟨hand, hh, regressOn_pcd_eq (hseg.mono (le_refl _) (by omega)) h⟩

theorem jsonAndRest_regressed_eq {args : Args} {env : Env} {c : Nat} {img : Image}
    {st : LoopState} {evs : List Event} {preds : List PredOutput}
    (hseg : EvSeg c 2 2 evs)
    (h : Event.regressed c preds ∈ (jsonAndRest args env c img st evs).evs) :
    ∃ hand, st.hand_bbox_list = some hand ∧ preds = env.regress img hand := by
  have hn : Event.regressed c preds ∉ evs := hseg.not_mem_hi (by simp [Event.rank])
  rcases jsonAndRest_cases args env c img st evs with
    ⟨_, heq⟩ | ⟨_, _, heq⟩ | ⟨_, _, _, heq⟩ | ⟨body, hand, _, _, _, heq⟩ <;> rw [heq] at h
  · exact emptyCheck_regressed_eq (hseg.mono (le_refl _) (by omega)) h
  · exact absurd h hn
  · exact absurd h hn
  · exact emptyCheck_regressed_eq (hseg.append (evseg_one c 3 3
      (Event.saveBboxJson c body hand) rfl (by simp [Event.rank]) (by simp [Event.rank]))
      (by omega) (by omega) (by omega)) h

theorem jsonAndRest_pcd_eq {args : Args} {env : Env} {c : Nat} {img : Image}
    {st : LoopState} {evs : List Event} {pts : List Joint}
    (hseg : EvSeg c 2 2 evs)
    (h : Event.updatePointCloud c pts ∈ (jsonAndRest args env c img st evs).evs) :
    ∃ hand, st.hand_bbox_list = some hand ∧
      ∃ p0 rest lh, env.regress img hand = p0 :: rest ∧ p0.left_hand = some lh ∧
        pts = negYTransform lh.pred_joints_smpl := by
  have hn : Event.updatePointCloud c pts ∉ evs := hseg.not_mem_hi (by simp [Event.rank])
  rcases jsonAndRest_cases args env c img st evs with
    ⟨_, heq⟩ | ⟨_, _, heq⟩ | ⟨_, _, _, heq⟩ | ⟨body, hand, _, _, _, heq⟩ <;> rw [heq] at h
  · exact emptyCheck_pcd_eq (hseg.mono (le_refl _) (by omega)) h
  · exact absurd h hn
  · exact absurd h hn
  · exact emptyCheck_pcd_eq (hseg.append (evseg_one c 3 3
      (Event.saveBboxJson c body hand) rfl (by simp [Event.rank]) (by simp [Event.rank]))
      (by omega) (by omega) (by omega)) h

theorem processFrame_link {args : Args} {env : Env} {c : Nat} {img : Image}
    {ld : Bool} {st : LoopState} {preds : List PredOutput} {pts : List Joint}
    (hr : Event.regressed c preds ∈ (processFrame args env c img ld st).evs)
    (hpc : Event.updatePointCloud c pts ∈ (processFrame args env c img ld st).evs) :
    ∃ p0 rest lh, preds = p0 :: rest ∧ p0.left_hand = some lh ∧
      pts = negYTransform lh.pred_joints_smpl := by
  rcases processFrame_cases args env c img ld st with
    ⟨_, heq⟩ | ⟨_, _, heq⟩ | ⟨_, _, heq⟩ | ⟨_, _, _, heq⟩ <;> rw [heq] at hr hpc
  · obtain ⟨hand, hh, hpr⟩ := jsonAndRest_regressed_eq (evseg_one c 2 2
      (Event.bboxPrecomputed c) rfl (by simp [Event.rank]) (by simp [Event.rank])) hr
    obtain ⟨hand2, hh2, p0, rest, lh, hre, hlh, hpt⟩ := jsonAndRest_pcd_eq (evseg_one c 2 2
      (Event.bboxPrecomputed c) rfl (by simp [Event.rank]) (by simp [Event.rank])) hpc
    rw [hh] at hh2
    have : hand2 = hand := by injection hh2 with h1; exact h1.symm
    subst this
    exact ⟨p0, rest, lh, by rw [hpr, hre], hlh, hpt⟩
  · obtain ⟨hand, hh, hpr⟩ := jsonAndRest_regressed_eq (evseg_one c 2 2
      (Event.bboxSynthesized c [wholeImageBox img]) rfl (by simp [Event.rank])
      (by simp [Event.rank])) hr
    obtain ⟨hand2, hh2, p0, rest, lh, hre, hlh, hpt⟩ := jsonAndRest_pcd_eq (evseg_one c 2 2
      (Event.bboxSynthesized c [wholeImageBox img]) rfl (by simp [Event.rank])
      (by simp [Event.rank])) hpc
    rw [hh] at hh2
    have : hand2 = hand := by injection hh2 with h1; exact h1.symm
    subst this
    exact ⟨p0, rest, lh, by rw [hpr, hre], hlh, hpt⟩
  · obtain ⟨hand, hh, hpr⟩ := jsonAndRest_regressed_eq (evseg_one c 2 2
      (Event.bboxDetected c) rfl (by simp [Event.rank]) (by simp [Event.rank])) hr
    obtain ⟨hand2, hh2, p0, rest, lh, hre, hlh, hpt⟩ := jsonAndRest_pcd_eq (evseg_one c 2 2
      (Event.bboxDetected c) rfl (by simp [Event.rank]) (by simp [Event.rank])) hpc
    rw [hh] at hh2
    have : hand2 = hand := by injection hh2 with h1; exact h1.symm
    subst this
    exact ⟨p0, rest, lh, by rw [hpr, hre], hlh, hpt⟩
  · cases hr

theorem emptyCheck_leftnone {args : Args} {env : Env} {c : Nat} {img : Image}
    {st : LoopState} {evs : List Event} {preds : List PredOutput}
    {p0 : PredOutput} {rest : List PredOutput}
    (hseg : EvSeg c 2 3 evs)
    (hr : Event.regressed c preds ∈ (emptyCheckAndRest args env c img st evs).evs)
    (hpe : preds = p0 :: rest) (hl : p0.left_hand = none) :
    ∃ evs2 o, emptyCheckAndRest args env c img st evs = .abort evs2 o ∧
      (∀ pts, Event.updatePointCloud c pts ∉ evs2) ∧ Event.visualize c ∉ evs2 := by
  have hn : Event.regressed c preds ∉ evs := hseg.not_mem_hi (by simp [Event.rank])
  rcases emptyCheck_cases args env c img st evs with
    ⟨_, heq⟩ | ⟨_, heq⟩ | ⟨hand, hh, _, heq⟩
  · rw [heq] at hr
    exact absurd hr hn
  · rw [heq] at hr
    simp only [IterStep.evs, List.mem_append, List.mem_singleton] at hr
    rcases hr with hr | hr
    · exact absurd hr hn
    · cases hr
  · rw [heq] at hr ⊢
    have hpr := regressOn_regressed_eq (hseg.mono (le_refl _) (by omega)) hr
    rw [hpe] at hpr
    exact regressOn_leftnone (hseg.mono (le_refl _) (by omega)) hpr.symm hl

theorem jsonAndRest_leftnone {args : Args} {env : Env} {c : Nat} {img : Image}
    {st : LoopState} {evs : List Event} {preds : List PredOutput}
    {p0 : PredOutput} {rest : List PredOutput}
    (hseg : EvSeg c 2 2 evs)
    (hr : Event.regressed c preds ∈ (jsonAndRest args env c img st evs).evs)
    (hpe : preds = p0 :: rest) (hl : p0.left_hand = none) :
    ∃ evs2 o, jsonAndRest args env c img st evs = .abort evs2 o ∧
      (∀ pts, Event.updatePointCloud c pts ∉ evs2) ∧ Event.visualize c ∉ evs2 := by
  have hn : Event.regressed c preds ∉ evs := hseg.not_mem_hi (by simp [Event.rank])
  rcases jsonAndRest_cases args env c img st evs with
    ⟨_, heq⟩ | ⟨_, _, heq⟩ | ⟨_, _, _, heq⟩ | ⟨body, hand, _, _, _, heq⟩ <;> rw [heq] at hr ⊢
  · exact emptyCheck_leftnone (hseg.mono (le_refl _) (by omega)) hr hpe hl
  · exact absurd hr hn
  · exact absurd hr hn
  · exact emptyCheck_leftnone (hseg.append (evseg_one c 3 3
      (Event.saveBboxJson c body hand) rfl (by simp [Event.rank]) (by simp [Event.rank]))
      (by omega) (by omega) (by omega)) hr hpe hl

theorem processFrame_leftnone {args : Args} {env : Env} {c : Nat} {img : Image}
    {ld : Bool} {st : LoopState} {preds : List PredOutput}
    {p0 : PredOutput} {rest : List PredOutput}
    (hr : Event.regressed c preds ∈ (processFrame args env c img ld st).evs)
    (hpe : preds = p0 :: rest) (hl : p0.left_hand = none) :
    ∃ evs2 o, processFrame args env c img ld st = .abort evs2 o ∧
      (∀ pts, Event.updatePointCloud c pts ∉ evs2) ∧ Event.visualize c ∉ evs2 := by
  rcases processFrame_cases args env c img ld st with
    ⟨_, heq⟩ | ⟨_, _, heq⟩ | ⟨_, _, heq⟩ | ⟨_, _, _, heq⟩ <;> rw [heq] at hr ⊢
  · exact jsonAndRest_leftnone (evseg_one c 2 2 (Event.bboxPrecomputed c) rfl
      (by simp [Event.rank]) (by simp [Event.rank])) hr hpe hl
  · exact jsonAndRest_leftnone (evseg_one c 2 2
      (Event.bboxSynthesized c [wholeImageBox img]) rfl (by simp [Event.rank])
      (by simp [Event.rank])) hr hpe hl
  · exact jsonAndRest_leftnone (evseg_one c 2 2 (Event.bboxDetected c) rfl
      (by simp [Event.rank]) (by simp [Event.rank])) hr hpe hl
  · cases hr

theorem processFrame_bbox_head (args : Args) (env : Env) (c : Nat) (img : Image)
    (ld : Bool) (st : LoopState) :
    (processFrame args env c img ld st).evs = [] ∨
    ∃ b tail, (processFrame args env c img ld st).evs = b :: tail ∧ EvSeg c 3 10 tail ∧
      ((ld = true ∧ b = Event.bboxPrecomputed c) ∨
        (ld = false ∧ args.crop_type = "hand_crop" ∧
          b = Event.bboxSynthesized c [wholeImageBox img]) ∨
        (ld = false ∧ args.crop_type = "no_crop" ∧ b = Event.bboxDetected c)) := by
  rcases processFrame_cases args env c img ld st with
    ⟨h1, heq⟩ | ⟨h1, h2, heq⟩ | ⟨h1, h2, heq⟩ | ⟨_, _, _, heq⟩ <;> rw [heq]
  · obtain ⟨tail, ht, hseg⟩ := jsonAndRest_decomp args env c img st
      [Event.bboxPrecomputed c]
    exact Or.inr ⟨_, tail, by rw [ht]; rfl, hseg, Or.inl ⟨h1, rfl⟩⟩
  · obtain ⟨tail, ht, hseg⟩ := jsonAndRest_decomp args env c img
      { st with hand_bbox_list := some [wholeImageBox img] }
      [Event.bboxSynthesized c [wholeImageBox img]]
    exact Or.inr ⟨_, tail, by rw [ht]; rfl, hseg, Or.inr (Or.inl ⟨h1, h2, rfl⟩)⟩
  · obtain ⟨tail, ht, hseg⟩ := jsonAndRest_decomp args env c img
      { hand_bbox_list := some (env.detect_hand_bbox img).hand_bbox_list,
        body_bbox_list := some (env.detect_hand_bbox img).body_bbox_list }
      [Event.bboxDetected c]
    exact Or.inr ⟨_, tail, by rw [ht]; rfl, hseg, Or.inr (Or.inr ⟨h1, h2, rfl⟩)⟩
  · exact Or.inl rfl

theorem regressOn_body_none {args : Args} {env : Env} {c : Nat} {img : Image}
    {hand : List HandBBoxEntry} {st : LoopState} {evs : List Event}
    (hb : st.body_bbox_list = none) :
    regressOn args env c img hand st evs =
      .abort (evs ++ [Event.regressed c (env.regress img hand)]) .unboundLocalBodyBbox := by
  simp [regressOn, hb]

theorem processFrame_handcrop_unbound (args : Args) (env : Env) (c : Nat) (img : Image)
    (st : LoopState) (hcrop : args.crop_type = "hand_crop")
    (hb : st.body_bbox_list = none) :
    ∃ evs2, processFrame args env c img false st = .abort evs2 .unboundLocalBodyBbox ∧
      Event.bboxSynthesized c [wholeImageBox img] ∈ evs2 ∧
      ∀ b h2, Event.saveBboxJson c b h2 ∉ evs2 := by
  by_cases hs : args.save_bbox_output = true
  · refine ⟨[Event.bboxSynthesized c [wholeImageBox img]], ?_, by simp, by simp⟩
    simp [processFrame, hcrop, jsonAndRest, hs, hb]
  · refine ⟨[Event.bboxSynthesized c [wholeImageBox img],
      Event.regressed c (env.regress img [wholeImageBox img])], ?_, by simp, by simp⟩
    have hs2 : args.save_bbox_output = false := by
      cases h : args.save_bbox_output
      · rfl
      · exact absurd h hs
    simp [processFrame, hcrop, jsonAndRest, hs2, emptyCheckAndRest, wholeImageBox,
      regressOn, hb]

theorem reachedBbox_append_right {f : Nat} {l1 l2 : List Event}
    (h : reachedBbox f l2) : reachedBbox f (l1 ++ l2) := by
  rcases h with h | ⟨l, h⟩ | h
  · exact Or.inl (List.mem_append_right _ h)
  · exact Or.inr (Or.inl ⟨l, List.mem_append_right _ h⟩)
  · exact Or.inr (Or.inr (List.mem_append_right _ h))

theorem reachedBbox_nil {f : Nat} (h : reachedBbox f ([] : List Event)) : False := by
  rcases h with h | ⟨l, h⟩ | h <;> cases h

theorem reachedBbox_evseg {f c lo hi : Nat} {evs : List Event} (hseg : EvSeg c lo hi evs)
    (hhi : hi < 2) (h : reachedBbox f evs) : False := by
  rcases h with h | ⟨l, h⟩ | h <;>
    exact absurd (hseg.2.2 _ h).2 (by simp [Event.rank]; omega)

theorem mainLoop_handcrop (args : Args) (env : Env)
    (hin : env.input_type = "image_dir" ∨ env.input_type = "video" ∨
      env.input_type = "webcam")
    (hcrop : args.crop_type = "hand_crop") :
    ∀ gas c st0, st0.body_bbox_list = none →
      (∀ f evs, (f, evs) ∈ (mainLoop args env gas c st0).1 → reachedBbox f evs →
        (mainLoop args env gas c st0).2 = .unboundLocalBodyBbox ∧
        (∀ b h2, Event.saveBboxJson f b h2 ∉ evs)) ∧
      (mainLoop args env gas c st0).1.length ≤ 1 := by
  have hnb : env.input_type ≠ "bbox_dir" := by
    rcases hin with h | h | h <;> rw [h] <;> decide
  intro gas c st0 hb
  cases gas with
  | zero =>
    constructor
    · intro f evs h
      simp [mainLoop] at h
    · simp [mainLoop]
  | succ gas =>
    cases hf : fetchFrame args env c st0 with
    | unknownInput =>
      constructor
      · intro f evs h hr
        simp only [mainLoop, hf, List.mem_singleton, Prod.mk.injEq] at h
        obtain ⟨rfl, rfl⟩ := h
        exact absurd hr (fun h2 => reachedBbox_nil h2)
      · simp [mainLoop, hf]
    | fetched img ld st1 evs0 =>
      rcases img with _ | img
      · constructor
        · intro f evs h hr
          simp only [mainLoop, hf, List.mem_singleton, Prod.mk.injEq] at h
          obtain ⟨rfl, rfl⟩ := h
          rw [fetch_none_evs hf] at hr
          exact absurd hr (fun h2 => reachedBbox_nil h2)
        · simp [mainLoop, hf]
      · obtain ⟨hseg0, _, _, _, hnonb, _, _⟩ := fetch_some_spec hf
        obtain ⟨hld, hst⟩ := hnonb hnb
        subst hld
        subst hst
        by_cases hend : c + 1 > args.end_frame
        · constructor
          · intro f evs h hr
            simp only [mainLoop, hf, hend, if_true, List.mem_singleton,
              Prod.mk.injEq] at h
            obtain ⟨rfl, rfl⟩ := h
            exact absurd hr (fun h2 => reachedBbox_evseg hseg0 (by omega) h2)
          · simp [mainLoop, hf, hend]
        · obtain ⟨evs2, hp, hsyn, hnoj⟩ :=
            processFrame_handcrop_unbound args env c img st1 hcrop hb
          constructor
          · intro f evs h hr
            simp only [mainLoop, hf, hend, if_false, hp, List.mem_singleton,
              Prod.mk.injEq] at h
            obtain ⟨rfl, rfl⟩ := h
            refine ⟨by simp [mainLoop, hf, hend, hp], ?_⟩
            intro b h2 hmem
            rcases List.mem_append.1 hmem with h3 | h3
            · exact hseg0.not_mem_hi (by simp [Event.rank]) h3
            · exact hnoj b h2 h3
          · simp [mainLoop, hf, hend, hp]

theorem mainLoop_skip_next (args : Args) (env : Env) : ∀ gas c st0 f evs,
    args.end_frame + 1 - c < gas →
    (f, evs) ∈ (mainLoop args env gas c st0).1 →
    Event.printNoHand f ∈ evs →
    ∃ evs2, (f + 1, evs2) ∈ (mainLoop args env gas c st0).1 := by
  intro gas
  induction gas with
  | zero => intro c st0 f evs hgas; omega
  | succ gas ih =>
    intro c st0 f evs hgas hmem hnh
    cases hf : fetchFrame args env c st0 with
    | unknownInput =>
      simp only [mainLoop, hf, List.mem_singleton, Prod.mk.injEq] at hmem
      obtain ⟨rfl, rfl⟩ := hmem
      cases hnh
    | fetched img ld st1 evs0 =>
      rcases img with _ | img
      · simp only [mainLoop, hf, List.mem_singleton, Prod.mk.injEq] at hmem
        obtain ⟨rfl, rfl⟩ := hmem
        rw [fetch_none_evs hf] at hnh
        cases hnh
      · have hseg0 := (fetch_some_spec hf).1
        by_cases hend : c + 1 > args.end_frame
        · simp only [mainLoop, hf, hend, if_true, List.mem_singleton,
            Prod.mk.injEq] at hmem
          obtain ⟨rfl, rfl⟩ := hmem
          exact absurd hnh (hseg0.not_mem_hi (by simp [Event.rank]))
        · rcases hp : processFrame args env c img ld st1 with ⟨evs2, o⟩ | ⟨st2, evs2⟩
          · simp only [mainLoop, hf, hend, if_false, hp, List.mem_singleton,
              Prod.mk.injEq] at hmem
            obtain ⟨rfl, rfl⟩ := hmem
            rcases List.mem_append.1 hnh with h2 | h2
            · exact absurd h2 (hseg0.not_mem_hi (by simp [Event.rank]))
            · have h3 : Event.printNoHand f ∈ (processFrame args env f img ld st1).evs := by
                rw [hp]; exact h2
              obtain ⟨st3, L, hcont, _⟩ := processFrame_noHand h3
              rw [hcont] at hp
              cases hp
          · have hloop : (mainLoop args env (gas + 1) c st0).1 =
                (c, evs0 ++ evs2) :: (mainLoop args env gas (c + 1) st2).1 := by
              simp [mainLoop, hf, hend, hp]
            rw [hloop] at hmem
            rcases List.mem_cons.1 hmem with heq2 | hmem2
            · have hfc : f = c := congrArg Prod.fst heq2
              subst hfc
              obtain ⟨evsn, restn, hn⟩ :=
                mainLoop_head args env gas (f + 1) st2 (by omega)
              refine ⟨evsn, ?_⟩
              rw [hloop, hn]
              simp
            · obtain ⟨evs3, h3⟩ := ih (c + 1) st2 f evs (by omega) hmem2 hnh
              exact ⟨evs3, by rw [hloop]; exact List.mem_cons_of_mem _ h3⟩

theorem mainLoop_processes (args : Args) (env : Env) (hin : inputFour env) :
    ∀ gas c st0 f,
    args.end_frame + 1 - c < gas → c ≤ f → f + 1 ≤ args.end_frame →
    (∀ g, c ≤ g → g ≤ f → sourceAt env g ≠ none) →
    (mainLoop args env gas c st0).2 = .ok →
    ∃ evs, (f, evs) ∈ (mainLoop args env gas c st0).1 ∧ reachedBbox f evs := by
  intro gas
  induction gas with
  | zero => intro c st0 f hgas; omega
  | succ gas ih =>
    intro c st0 f hgas hcf hfe hsrc hok
    obtain ⟨ld, st1, evs0, hf⟩ := fetch_sourceAt args c st0 hin
    have hsome := hsrc c (le_refl c) (by omega)
    rcases hs : sourceAt env c with _ | img
    · exact absurd hs hsome
    rw [hs] at hf
    have hend : ¬ (c + 1 > args.end_frame) := by omega
    rcases hp : processFrame args env c img ld st1 with ⟨evs2, o⟩ | ⟨st2, evs2⟩
    · have hout : (mainLoop args env (gas + 1) c st0).2 = o := by
        simp [mainLoop, hf, hend, hp]
      rw [hout] at hok
      exact absurd hok (processFrame_abort_ne_ok hp)
    · have hloop : (mainLoop args env (gas + 1) c st0).1 =
          (c, evs0 ++ evs2) :: (mainLoop args env gas (c + 1) st2).1 := by
        simp [mainLoop, hf, hend, hp]
      have hout : (mainLoop args env (gas + 1) c st0).2 =
          (mainLoop args env gas (c + 1) st2).2 := by
        simp [mainLoop, hf, hend, hp]
      by_cases hcf2 : f = c
      · subst hcf2
        refine ⟨evs0 ++ evs2, by rw [hloop]; exact List.mem_cons_self _ _, ?_⟩
        exact reachedBbox_append_right (processFrame_cont_reached hp)
      · obtain ⟨evs, hmem, hr⟩ := ih (c + 1) st2 f (by omega) (by omega) hfe
          (fun g hg1 hg2 => hsrc g (by omega) hg2) (by rw [← hout]; exact hok)
        exact ⟨evs, by rw [hloop]; exact List.mem_cons_of_mem _ hmem, hr⟩

theorem mainLoop_sound (args : Args) (env : Env) (hin : inputFour env) :
    ∀ gas c st0 f evs,
    (f, evs) ∈ (mainLoop args env gas c st0).1 → reachedBbox f evs →
    f + 1 ≤ args.end_frame ∧ ∀ g, c ≤ g → g ≤ f → sourceAt env g ≠ none := by
  intro gas
  induction gas with
  | zero => intro c st0 f evs h; simp [mainLoop] at h
  | succ gas ih =>
    intro c st0 f evs hmem hr
    obtain ⟨ld9, st9, evs9, hf9⟩ := fetch_sourceAt args c st0 hin
    cases hf : fetchFrame args env c st0 with
    | unknownInput =>
      simp only [mainLoop, hf, List.mem_singleton, Prod.mk.injEq] at hmem
      obtain ⟨rfl, rfl⟩ := hmem
      exact absurd hr (fun h2 => reachedBbox_nil h2)
    | fetched img ld st1 evs0 =>
      have himg : img = sourceAt env c := by
        rw [hf] at hf9
        cases hf9
        rfl
      rcases img with _ | img
      · simp only [mainLoop, hf, List.mem_singleton, Prod.mk.injEq] at hmem
        obtain ⟨rfl, rfl⟩ := hmem
        rw [fetch_none_evs hf] at hr
        exact absurd hr (fun h2 => reachedBbox_nil h2)
      · have hseg0 := (fetch_some_spec hf).1
        by_cases hend : c + 1 > args.end_frame
        · simp only [mainLoop, hf, hend, if_true, List.mem_singleton,
            Prod.mk.injEq] at hmem
          obtain ⟨rfl, rfl⟩ := hmem
          exact absurd hr (fun h2 => reachedBbox_evseg hseg0 (by omega) h2)
        · rcases hp : processFrame args env c img ld st1 with ⟨evs2, o⟩ | ⟨st2, evs2⟩
          · simp only [mainLoop, hf, hend, if_false, hp, List.mem_singleton,
              Prod.mk.injEq] at hmem
            obtain ⟨rfl, rfl⟩ := hmem
            refine ⟨by omega, ?_⟩
            intro g hg1 hg2
            have : g = f := by omega
            subst this
            rw [← himg]
            simp
          · have hloop : (mainLoop args env (gas + 1) c st0).1 =
                (c, evs0 ++ evs2) :: (mainLoop args env gas (c + 1) st2).1 := by
              simp [mainLoop, hf, hend, hp]
            rw [hloop] at hmem
            rcases List.mem_cons.1 hmem with heq2 | hmem2
            · have hfc : f = c := congrArg Prod.fst heq2
              subst hfc
              refine ⟨by omega, ?_⟩
              intro g hg1 hg2
              have : g = f := by omega
              subst this
              rw [← himg]
              simp
            · obtain ⟨h1, h2⟩ := ih (c + 1) st2 f evs hmem2 hr
              refine ⟨h1, ?_⟩
              intro g hg1 hg2
              by_cases hgc : g = c
              · subst hgc
                rw [← himg]
                simp
              · exact h2 g (by omega) hg2

theorem mainLoop_end_loaded (args : Args) (env : Env) (hin : inputFour env) :
    ∀ gas c st0,
    args.end_frame + 1 - c < gas → c ≤ args.end_frame →
    (∀ g, c ≤ g → g ≤ args.end_frame → sourceAt env g ≠ none) →
    (mainLoop args env gas c st0).2 = .ok →
    ∃ evs img, (args.end_frame, evs) ∈ (mainLoop args env gas c st0).1 ∧
      sourceAt env args.end_frame = some img ∧
      Event.selectFrame args.end_frame img ∈ evs ∧
      ((env.input_type = "video" ∨ env.input_type = "webcam") → args.save_frame = true →
        Event.saveFrameJpeg args.end_frame ∈ evs) := by
  intro gas
  induction gas with
  | zero => intro c st0 hgas; omega
  | succ gas ih =>
    intro c st0 hgas hce hsrc hok
    obtain ⟨ld, st1, evs0, hf⟩ := fetch_sourceAt args c st0 hin
    have hsome := hsrc c (le_refl c) hce
    rcases hs : sourceAt env c with _ | img
    · exact absurd hs hsome
    rw [hs] at hf
    by_cases hcend : c = args.end_frame
    · subst hcend
      have hend : args.end_frame + 1 > args.end_frame := by omega
      obtain ⟨_, hsel, _, _, _, _, hjpeg⟩ := fetch_some_spec hf
      refine ⟨evs0, img, ?_, hs, hsel, hjpeg⟩
      simp [mainLoop, hf, hend]
    · have hend : ¬ (c + 1 > args.end_frame) := by omega
      rcases hp : processFrame args env c img ld st1 with ⟨evs2, o⟩ | ⟨st2, evs2⟩
      · have hout : (mainLoop args env (gas + 1) c st0).2 = o := by
          simp [mainLoop, hf, hend, hp]
        rw [hout] at hok
        exact absurd hok (processFrame_abort_ne_ok hp)
      · have hloop : (mainLoop args env (gas + 1) c st0).1 =
            (c, evs0 ++ evs2) :: (mainLoop args env gas (c + 1) st2).1 := by
          simp [mainLoop, hf, hend, hp]
        have hout : (mainLoop args env (gas + 1) c st0).2 =
            (mainLoop args env gas (c + 1) st2).2 := by
          simp [mainLoop, hf, hend, hp]
        obtain ⟨evs, img2, hmem, hs2, hsel, hjpeg⟩ := ih (c + 1) st2 (by omega) (by omega)
          (fun g hg1 hg2 => hsrc g (by omega) hg2) (by rw [← hout]; exact hok)
        exact ⟨evs, img2, by rw [hloop]; exact List.mem_cons_of_mem _ hmem, hs2,
          hsel, hjpeg⟩

theorem processed_iff (args : Args) (env : Env) (f : Nat) :
    processed (run_hand_mocap args env) f = true ↔
    ∃ evs, (f, evs) ∈ (run_hand_mocap args env).frames ∧ reachedBbox f evs := by
  unfold processed
  rw [List.any_eq_true]
  constructor
  · rintro ⟨e, he, hb⟩
    rw [mem_trace_iff] at he
    rcases he with ⟨⟨f2, evs⟩, hp, hin⟩ | hpost
    · have hfr := run_block_frameOf hp hin
      cases e with
      | bboxPrecomputed g =>
        simp only [isBboxStepOf, decide_eq_true_eq] at hb
        simp only [Event.frameOf, Option.some.injEq] at hfr
        subst hb
        subst hfr
        exact ⟨evs, hp, Or.inl hin⟩
      | bboxSynthesized g l =>
        simp only [isBboxStepOf, decide_eq_true_eq] at hb
        simp only [Event.frameOf, Option.some.injEq] at hfr
        subst hb
        subst hfr
        exact ⟨evs, hp, Or.inr (Or.inl ⟨l, hin⟩)⟩
      | bboxDetected g =>
        simp only [isBboxStepOf, decide_eq_true_eq] at hb
        simp only [Event.frameOf, Option.some.injEq] at hfr
        subst hb
        subst hfr
        exact ⟨evs, hp, Or.inr (Or.inr hin)⟩
      | selectFrame g i => simp [isBboxStepOf] at hb
      | saveFrameJpeg g => simp [isBboxStepOf] at hb
      | saveBboxJson g b h2 => simp [isBboxStepOf] at hb
      | printNoHand g => simp [isBboxStepOf] at hb
      | regressed g p => simp [isBboxStepOf] at hb
      | updatePointCloud g p => simp [isBboxStepOf] at hb
      | visualize g => simp [isBboxStepOf] at hb
      | display g => simp [isBboxStepOf] at hb
      | saveResImg g => simp [isBboxStepOf] at hb
      | savePredPkl g => simp [isBboxStepOf] at hb
      | genVideoOut => simp [isBboxStepOf] at hb
      | releaseCapture => simp [isBboxStepOf] at hb
    · rcases run_post_elems hpost with rfl | rfl <;> simp [isBboxStepOf] at hb
  · rintro ⟨evs, hp, hr⟩
    rcases hr with h | ⟨l, h⟩ | h
    · exact ⟨_, mem_trace_iff.2 (Or.inl ⟨(f, evs), hp, h⟩), by simp [isBboxStepOf]⟩
    · exact ⟨_, mem_trace_iff.2 (Or.inl ⟨(f, evs), hp, h⟩), by simp [isBboxStepOf]⟩
    · exact ⟨_, mem_trace_iff.2 (Or.inl ⟨(f, evs), hp, h⟩), by simp [isBboxStepOf]⟩

/-- Shape of any block of a run: either all its events are frame selection
events (fetch only), or it splits as fetch events, one bbox step event
determined by load_bbox and crop_type, and later-stage events. -/
theorem run_block_shape {args : Args} {env : Env} {f : Nat} {evs : List Event}
    (hmem : (f, evs) ∈ (run_hand_mocap args env).frames) :
    (∀ e ∈ evs, e.rank ≤ 1) ∨
    ∃ evs0 img ld b tail,
      evs = evs0 ++ b :: tail ∧ EvSeg f 0 1 evs0 ∧ EvSeg f 3 10 tail ∧
      Event.selectFrame f img ∈ evs0 ∧
      (∀ i2, Event.selectFrame f i2 ∈ evs0 → i2 = img) ∧
      (ld = true → env.input_type = "bbox_dir") ∧
      (env.input_type = "bbox_dir" → ld = true) ∧
      ((ld = true ∧ b = Event.bboxPrecomputed f) ∨
        (ld = false ∧ args.crop_type = "hand_crop" ∧
          b = Event.bboxSynthesized f [wholeImageBox img]) ∨
        (ld = false ∧ args.crop_type = "no_crop" ∧ b = Event.bboxDetected f)) := by
  obtain ⟨hout, _, st, hcase⟩ := mem_frames_run hmem
  rcases hcase with ⟨_, rfl, _⟩ | ⟨ld, st1, evs0, hfe, rfl, _⟩ |
    ⟨img, ld, st1, evs0, hfe, hrest⟩
  · exact Or.inl (by simp)
  · rw [fetch_none_evs hfe]
    exact Or.inl (by simp)
  · obtain ⟨hseg0, hsel, huniq, hldb, hnonb, _, _⟩ := fetch_some_spec hfe
    have hbd : env.input_type = "bbox_dir" → ld = true := fun ht =>
      fetch_bboxdir_load ht hfe
    rcases hrest with ⟨_, rfl, _⟩ | ⟨_, hcase2⟩
    · exact Or.inl (fun e he => (hseg0.2.2 e he).2)
    · have key : ∀ evs2, evs2 = (processFrame args env f img ld st1).evs →
          (∀ e ∈ evs0 ++ evs2, e.rank ≤ 1) ∨
          ∃ evs0b imgb ldb b tail,
            evs0 ++ evs2 = evs0b ++ b :: tail ∧ EvSeg f 0 1 evs0b ∧
            EvSeg f 3 10 tail ∧ Event.selectFrame f imgb ∈ evs0b ∧
            (∀ i2, Event.selectFrame f i2 ∈ evs0b → i2 = imgb) ∧
            (ldb = true → env.input_type = "bbox_dir") ∧
            (env.input_type = "bbox_dir" → ldb = true) ∧
            ((ldb = true ∧ b = Event.bboxPrecomputed f) ∨
              (ldb = false ∧ args.crop_type = "hand_crop" ∧
                b = Event.bboxSynthesized f [wholeImageBox imgb]) ∨
              (ldb = false ∧ args.crop_type = "no_crop" ∧
                b = Event.bboxDetected f)) := by
        intro evs2 hevs2
        rcases processFrame_bbox_head args env f img ld st1 with
          hnil | ⟨b, tail, hsplit, hsegt, hb⟩
        · rw [← hevs2] at hnil
          subst hnil
          refine Or.inl ?_
          intro e he
          rw [List.append_nil] at he
          exact (hseg0.2.2 e he).2
        · rw [← hevs2] at hsplit
          subst hsplit
          exact Or.inr ⟨evs0, img, ld, b, tail, rfl, hseg0, hsegt, hsel, huniq,
            hldb, hbd, hb⟩
      rcases hcase2 with ⟨evs2, o, hproc, rfl, _⟩ | ⟨st2, evs2, hproc, rfl⟩
      · exact key evs2 (by rw [hproc]; rfl)
      · exact key evs2 (by rw [hproc]; rfl)

/-- C1: every run of run_hand_mocap handles each frame at most once: the
per-frame block list has strictly increasing frame indices, every event of
a block belongs to that block's own frame (one iteration of the single
configured input source), and inside a block the events follow the fixed
program order — frame selection, frame JPEG save, one bounding-box step
(precomputed load, hand_crop synthesis, or detection), bbox JSON save,
regression, point-cloud update, visualization, display, result-image
save, pkl save — with strictly increasing ranks, so each step happens at
most once and no step is retried. -/
theorem C1_per_frame_loop_order (args : Args) (env : Env) :
    List.Pairwise (fun p q => p.1 < q.1) (run_hand_mocap args env).frames ∧
    ∀ p ∈ (run_hand_mocap args env).frames,
      (∀ e ∈ p.2, e.frameOf = some p.1) ∧
      List.Chain' (· < ·) (p.2.map Event.rank) := by
  refine ⟨run_frames_pairwise args env, ?_⟩
  rintro ⟨f, evs⟩ hp
  have hs := blockCase_evseg (mem_frames_run hp).2.2
  exact ⟨hs.1, hs.2.1⟩

/-- Witness for C1 at a concrete fully processed frame. -/
theorem C1_per_frame_loop_order_witness :
    (∀ e ∈ fxEvs0, e.frameOf = some 0) ∧
    List.Chain' (· < ·) (fxEvs0.map Event.rank) :=
  (C1_per_frame_loop_order fxArgs fxEnv).2 (0, fxEvs0) (by decide)

/-- C2: the only error handling is process-aborting assertions (CUDA at
startup, out_dir before the loop, unknown input_type, unrecognized
crop_type, the two post-regression length equalities) plus uncaught
Python errors; no exception is caught, so on any abnormal outcome the run
produces no post-loop output (no video assembly, no capture release), and
each listed assertion is reachable at a concrete input. -/
theorem C2_blunt_assertions :
    (∀ (args : Args) (env : Env),
      ((main args env).outcome = .ok ∨
        (main args env).outcome = .assertCudaUnavailable ∨
        (main args env).outcome = .assertOutDirNone ∨
        (main args env).outcome = .assertUnknownInputType ∨
        (main args env).outcome = .assertCropType ∨
        (main args env).outcome = .assertLenHandBody ∨
        (main args env).outcome = .assertLenBodyPred ∨
        (main args env).outcome = .unboundLocalBodyBbox ∨
        (main args env).outcome = .unboundLocalHandBbox ∨
        (main args env).outcome = .errorPredIndex ∨
        (main args env).outcome = .errorLeftHand) ∧
      ((main args env).outcome ≠ .ok → (main args env).post = []) ∧
      (env.cuda_available = false → (main args env).outcome = .assertCudaUnavailable) ∧
      (env.cuda_available = true → args.out_dir = none →
        (main args env).outcome = .assertOutDirNone)) ∧
    (main fxArgs fxEnvNoCuda).outcome = .assertCudaUnavailable ∧
    (main { fxArgs with out_dir := none } fxEnv).outcome = .assertOutDirNone ∧
    (main fxArgs fxEnvUnknown).outcome = .assertUnknownInputType ∧
    (main fxArgsCrop fxEnv).outcome = .assertCropType ∧
    (main fxArgs fxEnvMisHB).outcome = .assertLenHandBody ∧
    (main fxArgs fxEnvMisBP).outcome = .assertLenBodyPred := by
  constructor
  · intro args env
    refine ⟨?_, ?_, ?_, ?_⟩
    · rcases h : (main args env).outcome <;> simp [h]
    · intro hne
      by_cases hc : env.cuda_available = true
      · have hm : main args env = run_hand_mocap args env := by simp [main, hc]
        rw [hm] at hne ⊢
        exact run_post_not_ok hne
      · have hcf : env.cuda_available = false := by
          cases h2 : env.cuda_available
          · rfl
          · exact absurd h2 hc
        simp [main, hcf]
    · intro hc
      simp [main, hc]
    · intro hc hd
      simp [main, hc, run_hand_mocap, hd]
  · exact ⟨by decide, by decide, by decide, by decide, by decide, by decide⟩

/-- Witness for C2: an aborted run has no post-loop output. -/
theorem C2_blunt_assertions_witness : (main fxArgs fxEnvNoCuda).post = [] :=
  (C2_blunt_assertions.1 fxArgs fxEnvNoCuda).2.1 (by decide)

/-- C3 counterexample: a video-input run that terminates normally makes no
release() call — the release on line 217 requires input_type webcam — so
the claim fails for input_type video. -/
theorem C3_counterexample :
    fxEnvVid.input_type = "video" ∧
    (run_hand_mocap fxArgs fxEnvVid).outcome = .ok ∧
    Event.releaseCapture ∉ (run_hand_mocap fxArgs fxEnvVid).trace :=
  ⟨rfl, by decide, by decide⟩

/-- C3 (amended): after the loop terminates normally, release() is called
on the capture iff input_type is webcam and setup_input returned a
non-None capture; a video run never releases its capture. -/
theorem C3_release_webcam_only (args : Args) (env : Env)
    (h : (run_hand_mocap args env).outcome = .ok) :
    Event.releaseCapture ∈ (run_hand_mocap args env).trace ↔
      env.input_type = "webcam" ∧ env.capture_some = true := by
  rw [mem_trace_iff]
  constructor
  · rintro (⟨⟨f2, evs⟩, hp, he⟩ | hpost)
    · have h2 := run_block_frameOf hp he
      simp [Event.frameOf] at h2
    · rw [run_post_ok h] at hpost
      rcases List.mem_append.1 hpost with h1 | h1
      · by_cases hc : ¬args.no_video_out ∧
            (env.input_type = "video" ∨ env.input_type = "webcam")
        · rw [if_pos hc] at h1
          simp at h1
        · rw [if_neg hc] at h1
          cases h1
      · by_cases hc : env.input_type = "webcam" ∧ env.capture_some = true
        · exact hc
        · rw [if_neg hc] at h1
          cases h1
  · intro hc
    refine Or.inr ?_
    rw [run_post_ok h]
    refine List.mem_append_right _ ?_
    rw [if_pos hc]
    simp

/-- Witness for C3: a webcam run with a live capture does release it. -/
theorem C3_release_webcam_only_witness :
    Event.releaseCapture ∈ (run_hand_mocap fxArgs fxEnvCam).trace :=
  (C3_release_webcam_only fxArgs fxEnvCam (by decide)).mpr ⟨rfl, rfl⟩

/-- Every visualized frame also has its result image saved: the save on
line 201 is guarded by out_dir not None, which the assert on line 80
already guarantees for any run that enters the loop. -/
theorem vis_implies_save (args : Args) (env : Env) (f : Nat)
    (h : Event.visualize f ∈ (run_hand_mocap args env).trace) :
    Event.saveResImg f ∈ (run_hand_mocap args env).trace := by
  rw [mem_trace_iff] at h ⊢
  rcases h with ⟨⟨f2, evs⟩, hp, he⟩ | hpost
  · have hfr := run_block_frameOf hp he
    simp only [Event.frameOf, Option.some.injEq] at hfr
    subst hfr
    obtain ⟨hout, _, st, hcase⟩ := mem_frames_run hp
    rcases hcase with ⟨_, rfl, _⟩ | ⟨ld, st1, evs0, hfe, rfl, _⟩ |
      ⟨img, ld, st1, evs0, hfe, hrest⟩
    · cases he
    · rw [fetch_none_evs hfe] at he
      cases he
    · have hseg0 := (fetch_some_spec hfe).1
      rcases hrest with ⟨_, rfl, _⟩ | ⟨_, hcase2⟩
      · exact absurd he (hseg0.not_mem_hi (by simp [Event.rank]))
      · rcases hcase2 with ⟨evs2, o, hproc, rfl, _⟩ | ⟨st2, evs2, hproc, rfl⟩ <;>
        · rcases List.mem_append.1 he with h1 | h1
          · exact absurd h1 (hseg0.not_mem_hi (by simp [Event.rank]))
          · have h2 : Event.visualize f ∈ (processFrame args env f img ld st1).evs := by
              rw [hproc]; exact h1
            have h3 := processFrame_vis_save hout h2
            rw [hproc] at h3
            exact Or.inl ⟨(f, evs0 ++ _), hp, List.mem_append_right _ h3⟩
  · rcases run_post_elems hpost with h1 | h1 <;> simp at h1

/-- C4 counterexample: the claim is false — no configuration exists in
which a frame is fully processed (visualized) without its result image
being written, because the out_dir assert makes the save guard always
true. -/
theorem C4_counterexample :
    ¬ ∃ (args : Args) (env : Env) (f : Nat),
        Event.visualize f ∈ (run_hand_mocap args env).trace ∧
        Event.saveResImg f ∉ (run_hand_mocap args env).trace := by
  rintro ⟨args, env, f, hv, hs⟩
  exact hs (vis_implies_save args env f hv)

/-- C4 (amended): persisting the annotated result image is in practice
unconditional: the save is syntactically guarded by out_dir not None, but
line 80 asserts exactly that before the loop, so every frame that reaches
visualization also has its result image written. -/
theorem C4_res_img_always_saved (args : Args) (env : Env) (f : Nat)
    (h : Event.visualize f ∈ (run_hand_mocap args env).trace) :
    Event.saveResImg f ∈ (run_hand_mocap args env).trace :=
  vis_implies_save args env f h

/-- Witness for C4 at a concrete fully processed frame. -/
theorem C4_res_img_always_saved_witness :
    Event.saveResImg 0 ∈ (run_hand_mocap fxArgs fxEnv).trace :=
  C4_res_img_always_saved fxArgs fxEnv 0 (by decide)

/-- C5: for every frame block of a run, the detector is invoked (the
bboxDetected event) iff the frame reached the bbox dispatch, its boxes
were not preloaded from a bbox_dir input, and crop_type is no_crop; under
crop_type hand_crop no detection ever runs and the synthesized hand bbox
list is exactly one right_hand entry [0, 0, img_w, img_h] covering the
whole selected image. -/
theorem C5_detection_iff (args : Args) (env : Env) (f : Nat) (evs : List Event)
    (hmem : (f, evs) ∈ (run_hand_mocap args env).frames) :
    (Event.bboxDetected f ∈ evs ↔
      reachedBbox f evs ∧ env.input_type ≠ "bbox_dir" ∧
        args.crop_type = "no_crop") ∧
    (args.crop_type = "hand_crop" →
      Event.bboxDetected f ∉ evs ∧
      ∀ l img, Event.bboxSynthesized f l ∈ evs → Event.selectFrame f img ∈ evs →
        l = [wholeImageBox img]) := by
  rcases run_block_shape hmem with hlow | ⟨evs0, img, ld, b, tail, rfl, hseg0, hsegt,
    hsel, huniq, hldb, hbd, hb⟩
  · constructor
    · constructor
      · intro h2
        exact absurd (hlow _ h2) (by simp [Event.rank])
      · rintro ⟨hr, _, _⟩
        rcases hr with h2 | ⟨l, h2⟩ | h2 <;>
          exact absurd (hlow _ h2) (by simp [Event.rank])
    · intro _
      constructor
      · intro h2
        exact absurd (hlow _ h2) (by simp [Event.rank])
      · intro l img h2 _
        exact absurd (hlow _ h2) (by simp [Event.rank])
  · have hmemb : ∀ e : Event, e.rank = 2 → (e ∈ evs0 ++ b :: tail ↔ e = b) := by
      intro e her
      constructor
      · intro h2
        rcases List.mem_append.1 h2 with h3 | h3
        · exact absurd (hseg0.2.2 e h3).2 (by omega)
        · rcases List.mem_cons.1 h3 with h4 | h4
          · exact h4
          · exact absurd (hsegt.2.2 e h4).1 (by omega)
      · intro h2
        rw [h2]
        exact List.mem_append_right _ (List.mem_cons_self _ _)
    constructor
    · constructor
      · intro h2
        have hbd2 : Event.bboxDetected f = b := (hmemb (Event.bboxDetected f) rfl).1 h2
        rcases hb with ⟨hld, hbe⟩ | ⟨hld, hcr, hbe⟩ | ⟨hld, hcr, hbe⟩
        · rw [hbe] at hbd2; cases hbd2
        · rw [hbe] at hbd2; cases hbd2
        · refine ⟨Or.inr (Or.inr h2), ?_, hcr⟩
          intro hbdir
          rw [hbd hbdir] at hld
          cases hld
      · rintro ⟨hr, hnb, hcr⟩
        rcases hb with ⟨hld, hbe⟩ | ⟨hld, hcr2, hbe⟩ | ⟨hld, hcr2, hbe⟩
        · exact absurd (hldb hld) hnb
        · exact absurd (hcr2.symm.trans hcr) (by decide)
        · rw [hbe]
          exact List.mem_append_right _ (List.mem_cons_self _ _)
    · intro hcrop
      have hnd : Event.bboxDetected f ∉ evs0 ++ b :: tail := by
        intro h2
        have hbd2 : Event.bboxDetected f = b := (hmemb (Event.bboxDetected f) rfl).1 h2
        rcases hb with ⟨hld, hbe⟩ | ⟨hld, hcr, hbe⟩ | ⟨hld, hcr, hbe⟩
        · rw [hbe] at hbd2; cases hbd2
        · rw [hbe] at hbd2; cases hbd2
        · exact absurd (hcr.symm.trans hcrop) (by decide)
      refine ⟨hnd, ?_⟩
      intro l img2 hsyn hsel2
      have hsyn2 : Event.bboxSynthesized f l = b :=
        (hmemb (Event.bboxSynthesized f l) rfl).1 hsyn
      have himg2 : img2 = img := by
        apply huniq
        rcases List.mem_append.1 hsel2 with h3 | h3
        · exact h3
        · rcases List.mem_cons.1 h3 with h4 | h4
          · rw [← hsyn2] at h4; cases h4
          · exact absurd (hsegt.2.2 _ h4).1 (by simp [Event.rank])
      subst himg2
      rcases hb with ⟨hld, hbe⟩ | ⟨hld, hcr, hbe⟩ | ⟨hld, hcr, hbe⟩
      · rw [hbe] at hsyn2; cases hsyn2
      · rw [hbe] at hsyn2
        simp only [Event.bboxSynthesized.injEq, true_and] at hsyn2
        exact hsyn2
      · exact absurd (hcr.symm.trans hcrop) (by decide)

/-- Witness for C5: in a concrete no_crop image_dir run, detection did run
on the processed frame. -/
theorem C5_detection_iff_witness : Event.bboxDetected 0 ∈ fxEvs0 :=
  ((C5_detection_iff fxArgs fxEnv 0 fxEvs0 (by decide)).1).mpr
    ⟨Or.inr (Or.inr (by decide)), by decide, rfl⟩

/-- C6: a frame whose hand bbox list came up empty is skipped with no
retry: its block (marked by the printed skip message) contains no
regression, point-cloud, visualization, result-image or pkl event; the
bbox JSON, when enabled, was still written before the emptiness check and
records the empty hand list; and the loop advances to frame f + 1. -/
theorem C6_empty_bbox_skip (args : Args) (env : Env) (f : Nat) (evs : List Event)
    (hmem : (f, evs) ∈ (run_hand_mocap args env).frames)
    (hnh : Event.printNoHand f ∈ evs) :
    (∀ ps, Event.regressed f ps ∉ evs) ∧
    (∀ pts, Event.updatePointCloud f pts ∉ evs) ∧
    Event.visualize f ∉ evs ∧
    Event.saveResImg f ∉ evs ∧
    Event.savePredPkl f ∉ evs ∧
    (args.save_bbox_output = true → ∃ body, Event.saveBboxJson f body [] ∈ evs) ∧
    ∃ evs2, (f + 1, evs2) ∈ (run_hand_mocap args env).frames := by
  obtain ⟨hout, _, st, hcase⟩ := mem_frames_run hmem
  have hseg : EvSeg f 0 4 evs := by
    rcases hcase with ⟨_, rfl, _⟩ | ⟨ld, st1, evs0, hfe, rfl, _⟩ |
      ⟨img, ld, st1, evs0, hfe, hrest⟩
    · cases hnh
    · rw [fetch_none_evs hfe] at hnh
      cases hnh
    · have hseg0 := (fetch_some_spec hfe).1
      rcases hrest with ⟨_, rfl, _⟩ | ⟨_, hcase2⟩
      · exact absurd hnh (hseg0.not_mem_hi (by simp [Event.rank]))
      · rcases hcase2 with ⟨evs2, o, hproc, rfl, _⟩ | ⟨st2, evs2, hproc, rfl⟩
        · have h2 : Event.printNoHand f ∈ (processFrame args env f img ld st1).evs := by
            rw [hproc]
            refine (List.mem_append.1 hnh).resolve_left ?_
            exact hseg0.not_mem_hi (by simp [Event.rank])
          obtain ⟨st3, L, hcont, _⟩ := processFrame_noHand h2
          rw [hcont] at hproc
          cases hproc
        · have h2 : Event.printNoHand f ∈ (processFrame args env f img ld st1).evs := by
            rw [hproc]
            refine (List.mem_append.1 hnh).resolve_left ?_
            exact hseg0.not_mem_hi (by simp [Event.rank])
          obtain ⟨st3, L, hcont, hsegL, _, _⟩ := processFrame_noHand h2
          rw [hcont] at hproc
          have hL : L = evs2 := by injection hproc
          subst hL
          exact hseg0.append hsegL (by omega) (by omega) (by omega)
  have hjson : args.save_bbox_output = true →
      ∃ body, Event.saveBboxJson f body [] ∈ evs := by
    intro hs
    rcases hcase with ⟨_, rfl, _⟩ | ⟨ld, st1, evs0, hfe, rfl, _⟩ |
      ⟨img, ld, st1, evs0, hfe, hrest⟩
    · cases hnh
    · rw [fetch_none_evs hfe] at hnh
      cases hnh
    · have hseg0 := (fetch_some_spec hfe).1
      rcases hrest with ⟨_, rfl, _⟩ | ⟨_, hcase2⟩
      · exact absurd hnh (hseg0.not_mem_hi (by simp [Event.rank]))
      · rcases hcase2 with ⟨evs2, o, hproc, rfl, _⟩ | ⟨st2, evs2, hproc, rfl⟩
        · have h2 : Event.printNoHand f ∈ (processFrame args env f img ld st1).evs := by
            rw [hproc]
            refine (List.mem_append.1 hnh).resolve_left ?_
            exact hseg0.not_mem_hi (by simp [Event.rank])
          obtain ⟨st3, L, hcont, _⟩ := processFrame_noHand h2
          rw [hcont] at hproc
          cases hproc
        · have h2 : Event.printNoHand f ∈ (processFrame args env f img ld st1).evs := by
            rw [hproc]
            refine (List.mem_append.1 hnh).resolve_left ?_
            exact hseg0.not_mem_hi (by simp [Event.rank])
          obtain ⟨st3, L, hcont, _, _, hj⟩ := processFrame_noHand h2
          rw [hcont] at hproc
          have hL : L = evs2 := by injection hproc
          subst hL
          obtain ⟨body, hbmem⟩ := hj hs
          exact ⟨body, List.mem_append_right _ hbmem⟩
  refine ⟨?_, ?_, ?_, ?_, ?_, hjson, ?_⟩
  · intro ps
    exact hseg.not_mem_hi (by simp [Event.rank])
  · intro pts
    exact hseg.not_mem_hi (by simp [Event.rank])
  · exact hseg.not_mem_hi (by simp [Event.rank])
  · exact hseg.not_mem_hi (by simp [Event.rank])
  · exact hseg.not_mem_hi (by simp [Event.rank])
  · obtain ⟨hfr, _⟩ := run_frames_outcome_eq env hout
    rw [hfr] at hmem ⊢
    exact mainLoop_skip_next args env (gas0 args) args.start_frame ⟨none, none⟩
      f evs (gas0_sufficient args) hmem hnh

/-- Witness for C6 at a concrete empty-detection frame with the JSON save
enabled. -/
theorem C6_empty_bbox_skip_witness :
    Event.visualize 0 ∉ fxEvsSkip ∧
    (∃ body, Event.saveBboxJson 0 body [] ∈ fxEvsSkip) ∧
    ∃ evs2, (1, evs2) ∈ (run_hand_mocap fxArgsJson fxEnvEmpty).frames := by
  obtain ⟨h1, h2, h3, h4, h5, h6, h7⟩ :=
    C6_empty_bbox_skip fxArgsJson fxEnvEmpty 0 fxEvsSkip (by decide) (by decide)
  exact ⟨h3, h6 rfl, h7⟩

/-- C7: an assembled video is generated after a normally terminating loop
iff the input type is video or webcam and no_video_out is unset; for
image_dir and bbox_dir inputs no video is ever assembled, whatever the
outcome. -/
theorem C7_video_out_iff (args : Args) (env : Env) :
    ((run_hand_mocap args env).outcome = .ok →
      (Event.genVideoOut ∈ (run_hand_mocap args env).trace ↔
        (env.input_type = "video" ∨ env.input_type = "webcam") ∧
          args.no_video_out = false)) ∧
    ((env.input_type = "image_dir" ∨ env.input_type = "bbox_dir") →
      Event.genVideoOut ∉ (run_hand_mocap args env).trace) := by
  constructor
  · intro hok
    rw [mem_trace_iff]
    constructor
    · rintro (⟨⟨f2, evs⟩, hp, he⟩ | hpost)
      · have h2 := run_block_frameOf hp he
        simp [Event.frameOf] at h2
      · rw [run_post_ok hok] at hpost
        rcases List.mem_append.1 hpost with h1 | h1
        · by_cases hc : ¬args.no_video_out ∧
              (env.input_type = "video" ∨ env.input_type = "webcam")
          · refine ⟨hc.2, ?_⟩
            have h3 := hc.1
            cases h4 : args.no_video_out
            · rfl
            · rw [h4] at h3; exact absurd rfl h3
          · rw [if_neg hc] at h1
            cases h1
        · by_cases hc : env.input_type = "webcam" ∧ env.capture_some = true
          · rw [if_pos hc] at h1
            simp at h1
          · rw [if_neg hc] at h1
            cases h1
    · rintro ⟨h1, h2⟩
      refine Or.inr ?_
      rw [run_post_ok hok]
      refine List.mem_append_left _ ?_
      have hc : ¬args.no_video_out ∧
          (env.input_type = "video" ∨ env.input_type = "webcam") :=
        ⟨by simp [h2], h1⟩
      rw [if_pos hc]
      simp
  · intro hio hmem
    rw [mem_trace_iff] at hmem
    rcases hmem with ⟨⟨f2, evs⟩, hp, he⟩ | hpost
    · have h2 := run_block_frameOf hp he
      simp [Event.frameOf] at h2
    · by_cases hok : (run_hand_mocap args env).outcome = .ok
      · rw [run_post_ok hok] at hpost
        rcases List.mem_append.1 hpost with h1 | h1
        · by_cases hc : ¬args.no_video_out ∧
              (env.input_type = "video" ∨ env.input_type = "webcam")
          · rcases hc.2 with hv | hv <;> rcases hio with hi | hi <;>
              rw [hi] at hv <;> exact absurd hv (by decide)
          · rw [if_neg hc] at h1
            cases h1
        · by_cases hc : env.input_type = "webcam" ∧ env.capture_some = true
          · rcases hio with hi | hi <;> rw [hi] at hc <;>
              exact absurd hc.1 (by decide)
          · rw [if_neg hc] at h1
            cases h1
      · rw [run_post_not_ok hok] at hpost
        cases hpost

/-- Witness for C7: the concrete empty video run assembles its output video. -/
theorem C7_video_out_iff_witness :
    Event.genVideoOut ∈ (run_hand_mocap fxArgs fxEnvVid).trace :=
  ((C7_video_out_iff fxArgs fxEnvVid).1 (by decide)).mpr ⟨Or.inl rfl, rfl⟩

/-- C8: in a hand_crop run over a non-bbox_dir input, body_bbox_list is
never assigned before use, so the first frame that reaches the bbox
dispatch kills the whole run with an UnboundLocalError (outcome
unboundLocalBodyBbox, not a clean assertion) — the read happens at the
JSON save when save_bbox_output is set (so the JSON is never written) and
otherwise at the length assert after regression — and no other frame is
ever processed, so the later-frames case never arises. -/
theorem C8_handcrop_unbound (args : Args) (env : Env)
    (hin : env.input_type = "image_dir" ∨ env.input_type = "video" ∨
      env.input_type = "webcam")
    (hcrop : args.crop_type = "hand_crop")
    (f : Nat) (evs : List Event)
    (hmem : (f, evs) ∈ (run_hand_mocap args env).frames)
    (hr : reachedBbox f evs) :
    (run_hand_mocap args env).outcome = .unboundLocalBodyBbox ∧
    (∀ b h2, Event.saveBboxJson f b h2 ∉ evs) ∧
    ∀ f2 evs2, (f2, evs2) ∈ (run_hand_mocap args env).frames →
      reachedBbox f2 evs2 → f2 = f := by
  have hd := (mem_frames_run hmem).1
  obtain ⟨hfr, ho⟩ := run_frames_outcome_eq env hd
  obtain ⟨hall, hlen⟩ := mainLoop_handcrop args env hin hcrop (gas0 args)
    args.start_frame ⟨none, none⟩ rfl
  rw [hfr] at hmem
  obtain ⟨h1, h2⟩ := hall f evs hmem hr
  refine ⟨by rw [ho]; exact h1, h2, ?_⟩
  intro f2 evs2 hmem2 _
  rw [hfr] at hmem2
  rcases hlist : (mainLoop args env (gas0 args) args.start_frame ⟨none, none⟩).1 with
    _ | ⟨p, rest⟩
  · rw [hlist] at hmem
    cases hmem
  · rw [hlist] at hmem hmem2 hlen
    have hrest : rest = [] := by
      simp only [List.length_cons] at hlen
      exact List.eq_nil_of_length_eq_zero (by omega)
    subst hrest
    rcases List.mem_singleton.1 hmem with rfl
    have h3 := List.mem_singleton.1 hmem2
    exact congrArg Prod.fst h3

/-- Witness for C8 at the concrete hand_crop run. -/
theorem C8_handcrop_unbound_witness :
    (run_hand_mocap fxArgsHC fxEnv).outcome = Outcome.unboundLocalBodyBbox :=
  (C8_handcrop_unbound fxArgsHC fxEnv (Or.inl rfl) rfl 0 fxEvsHC (by decide)
    (Or.inr (Or.inl ⟨[wholeImageBox fxImg], by decide⟩))).1

/-- C9 counterexample: in an image_dir run whose file at index 0 is
unreadable (imread gives None) while index 1 is fine, frame 1 satisfies
start_frame ≤ 1 ≤ end_frame - 1 and the source yields a non-None image at
1, yet frame 1 is never processed, because the loop already broke at
frame 0 — refuting the claimed iff. -/
theorem C9_counterexample :
    fxEnvGap.input_type = "image_dir" ∧
    (run_hand_mocap fxArgs fxEnvGap).outcome = .ok ∧
    fxArgs.start_frame ≤ 1 ∧ 1 + 1 ≤ fxArgs.end_frame ∧
    sourceAt fxEnvGap 1 ≠ none ∧
    processed (run_hand_mocap fxArgs fxEnvGap) 1 = false :=
  ⟨rfl, by decide, by decide, by decide, by decide, by decide⟩

/-- C9 (amended): in a run over a recognized input source that terminates
normally, frame f is processed (reaches the bbox dispatch and so
detection, regression and visualization territory) iff start_frame ≤ f,
f ≤ end_frame - 1, and the source yields a non-None image at every index
from start_frame through f; when every frame of [start_frame, end_frame]
is available, the frame at index end_frame itself is still loaded from
the source (and, for video or webcam with save_frame set, written out as
a JPEG) but is never processed — the range is exclusive at the top. -/
theorem C9_frame_range (args : Args) (env : Env) (hin : inputFour env)
    (hok : (run_hand_mocap args env).outcome = .ok) :
    (∀ f, processed (run_hand_mocap args env) f = true ↔
      (args.start_frame ≤ f ∧ f + 1 ≤ args.end_frame ∧
        ∀ g, args.start_frame ≤ g → g ≤ f → sourceAt env g ≠ none)) ∧
    (args.start_frame ≤ args.end_frame →
      (∀ g, args.start_frame ≤ g → g ≤ args.end_frame → sourceAt env g ≠ none) →
      ∃ img, sourceAt env args.end_frame = some img ∧
        Event.selectFrame args.end_frame img ∈ (run_hand_mocap args env).trace ∧
        processed (run_hand_mocap args env) args.end_frame = false ∧
        ((env.input_type = "video" ∨ env.input_type = "webcam") →
          args.save_frame = true →
          Event.saveFrameJpeg args.end_frame ∈ (run_hand_mocap args env).trace)) := by
  have hd := run_ok_outdir hok
  obtain ⟨hfr, ho⟩ := run_frames_outcome_eq env hd
  have hok2 : (mainLoop args env (gas0 args) args.start_frame ⟨none, none⟩).2 = .ok := by
    rw [← ho]
    exact hok
  constructor
  · intro f
    rw [processed_iff]
    constructor
    · rintro ⟨evs, hmem, hr⟩
      rw [hfr] at hmem
      have hlb := (mem_mainLoop args env (gas0 args) args.start_frame
        ⟨none, none⟩ f evs hmem).1
      obtain ⟨h1, h2⟩ := mainLoop_sound args env hin (gas0 args) args.start_frame
        ⟨none, none⟩ f evs hmem hr
      exact ⟨hlb, h1, h2⟩
    · rintro ⟨h1, h2, h3⟩
      obtain ⟨evs, hmem, hr⟩ := mainLoop_processes args env hin (gas0 args)
        args.start_frame ⟨none, none⟩ f (gas0_sufficient args) h1 h2 h3 hok2
      exact ⟨evs, by rw [hfr]; exact hmem, hr⟩
  · intro hse hsrc
    obtain ⟨evs, img, hmem, hs, hsel, hjpeg⟩ := mainLoop_end_loaded args env hin
      (gas0 args) args.start_frame ⟨none, none⟩ (gas0_sufficient args) hse hsrc hok2
    refine ⟨img, hs, ?_, ?_, ?_⟩
    · exact mem_trace_iff.2 (Or.inl ⟨(args.end_frame, evs),
        by rw [hfr]; exact hmem, hsel⟩)
    · by_contra hproc
      have hproc2 : processed (run_hand_mocap args env) args.end_frame = true := by
        cases hpb : processed (run_hand_mocap args env) args.end_frame
        · exact absurd hpb hproc
        · rfl
      rw [processed_iff] at hproc2
      obtain ⟨evs2, hmem2, hr2⟩ := hproc2
      rw [hfr] at hmem2
      have := (mainLoop_sound args env hin (gas0 args) args.start_frame
        ⟨none, none⟩ args.end_frame evs2 hmem2 hr2).1
      omega
    · intro hvw hsf
      exact mem_trace_iff.2 (Or.inl ⟨(args.end_frame, evs),
        by rw [hfr]; exact hmem, hjpeg hvw hsf⟩)

/-- Witness for C9 at the concrete one-image run: frame 0 is processed. -/
theorem C9_frame_range_witness :
    processed (run_hand_mocap fxArgs fxEnv) 0 = true :=
  ((C9_frame_range fxArgs fxEnv (Or.inl rfl) (by decide)).1 0).mpr
    ⟨by decide, by decide, fun g _ h2 => by
      have hg : g = 0 := by omega
      subst hg
      decide⟩

/-- C10: per frame block, the point cloud sent to the renderer is computed
from the left_hand entry of the first prediction only — its points are
exactly pred_joints_smpl of that entry with the Y coordinate negated by
the transform, so later predictions and any right-hand output never
affect it — and when the first prediction has no usable left_hand the
point-cloud step fails: no point-cloud or visualize event occurs and the
run does not end normally. -/
theorem C10_point_cloud (args : Args) (env : Env) (f : Nat) (evs : List Event)
    (preds : List PredOutput)
    (hmem : (f, evs) ∈ (run_hand_mocap args env).frames)
    (hreg : Event.regressed f preds ∈ evs) :
    (∀ pts, Event.updatePointCloud f pts ∈ evs →
      ∃ p0 rest lh, preds = p0 :: rest ∧ p0.left_hand = some lh ∧
        pts = negYTransform lh.pred_joints_smpl ∧
        pts = lh.pred_joints_smpl.map (fun j => (j.1, -j.2.1, j.2.2))) ∧
    (∀ p0 rest, preds = p0 :: rest → p0.left_hand = none →
      (∀ pts, Event.updatePointCloud f pts ∉ evs) ∧ Event.visualize f ∉ evs ∧
      (run_hand_mocap args env).outcome ≠ .ok) := by
  obtain ⟨hout, _, st, hcase⟩ := mem_frames_run hmem
  rcases hcase with ⟨_, rfl, _⟩ | ⟨ld, st1, evs0, hfe, rfl, _⟩ |
    ⟨img, ld, st1, evs0, hfe, hrest⟩
  · cases hreg
  · rw [fetch_none_evs hfe] at hreg
    cases hreg
  · have hseg0 := (fetch_some_spec hfe).1
    rcases hrest with ⟨_, rfl, _⟩ | ⟨_, hcase2⟩
    · exact absurd hreg (hseg0.not_mem_hi (by simp [Event.rank]))
    · rcases hcase2 with ⟨evs2, o, hproc, rfl, hoc⟩ | ⟨st2, evs2, hproc, rfl⟩
      · have hregp : Event.regressed f preds ∈ (processFrame args env f img ld st1).evs := by
          rw [hproc]
          exact (List.mem_append.1 hreg).resolve_left
            (hseg0.not_mem_hi (by simp [Event.rank]))
        constructor
        · intro pts hpts
          have hptsp : Event.updatePointCloud f pts ∈
              (processFrame args env f img ld st1).evs := by
            rw [hproc]
            exact (List.mem_append.1 hpts).resolve_left
              (hseg0.not_mem_hi (by simp [Event.rank]))
          obtain ⟨p0, rest, lh, hp1, hp2, hp3⟩ := processFrame_link hregp hptsp
          exact ⟨p0, rest, lh, hp1, hp2, hp3, by rw [hp3]; rfl⟩
        · intro p0 rest hpe hl
          obtain ⟨evs2b, ob, habort, hnp, hnv⟩ := processFrame_leftnone hregp hpe hl
          rw [hproc] at habort
          cases habort
          refine ⟨?_, ?_, ?_⟩
          · intro pts hpts
            rcases List.mem_append.1 hpts with h3 | h3
            · exact hseg0.not_mem_hi (by simp [Event.rank]) h3
            · exact hnp pts h3
          · intro hvmem
            rcases List.mem_append.1 hvmem with h3 | h3
            · exact hseg0.not_mem_hi (by simp [Event.rank]) h3
            · exact hnv h3
          · rw [hoc]
            exact processFrame_abort_ne_ok hproc
      · have hregp : Event.regressed f preds ∈ (processFrame args env f img ld st1).evs := by
          rw [hproc]
          exact (List.mem_append.1 hreg).resolve_left
            (hseg0.not_mem_hi (by simp [Event.rank]))
        constructor
        · intro pts hpts
          have hptsp : Event.updatePointCloud f pts ∈
              (processFrame args env f img ld st1).evs := by
            rw [hproc]
            exact (List.mem_append.1 hpts).resolve_left
              (hseg0.not_mem_hi (by simp [Event.rank]))
          obtain ⟨p0, rest, lh, hp1, hp2, hp3⟩ := processFrame_link hregp hptsp
          exact ⟨p0, rest, lh, hp1, hp2, hp3, by rw [hp3]; rfl⟩
        · intro p0 rest hpe hl
          obtain ⟨evs2b, ob, habort, _, _⟩ := processFrame_leftnone hregp hpe hl
          rw [hproc] at habort
          cases habort

/-- Witness for C10 at the concrete run whose single prediction has only a
right hand: the point-cloud step fails and the run aborts. -/
theorem C10_point_cloud_witness :
    (∀ pts, Event.updatePointCloud 0 pts ∉ fxEvsNoLH) ∧
    Event.visualize 0 ∉ fxEvsNoLH ∧
    (run_hand_mocap fxArgs fxEnvNoLH).outcome ≠ Outcome.ok :=
  (C10_point_cloud fxArgs fxEnvNoLH 0 fxEvsNoLH [⟨none, some ⟨[(1, 2, 3)]⟩⟩]
    (by decide) (by decide)).2 ⟨none, some ⟨[(1, 2, 3)]⟩⟩ [] rfl rfl

end HandMocapDemo
